import Mathlib

/-!
Verification development for the simplecss CSS tokenizer.

The tokenizer engine (src/tokenizer.rs) is embedded as fuel-indexed pure
functions over an explicit tokenizer state.  The byte-stream utility and
the error record are not part of the sources; they are modelled from the
specification contract (spec sections 4.1 and 7): a cursor over the bytes
of the window, with the window's absolute start kept as an offset that is
used only when reporting positions.  Errors carry the absolute byte
offset at which classification failed; the 1-based line/column pair of
the specification is computed from that offset by `gen_line_col`.

Bytes are plain naturals (the input is read byte by byte; only ASCII
bytes are ever classified).  Token payloads are byte lists sliced out of
the input.
-/

set_option maxRecDepth 10000

namespace SimpleCss

/-- Modelled from the spec: ASCII whitespace set {space, tab, LF, CR, FF}. -/
def is_space (c : Nat) : Bool :=
  c == 32 || c == 9 || c == 10 || c == 13 || c == 12

/-- Modelled from the spec: the identifier byte class — ASCII letters,
digits, `-` and `_`; every non-ASCII byte is rejected. -/
def is_ident_char (c : Nat) : Bool :=
  (48 ≤ c && c ≤ 57) || (65 ≤ c && c ≤ 90) || (97 ≤ c && c ≤ 122) || c == 45 || c == 95

/-- Modelled from the spec: the byte stream.  `data` holds the bytes of
the window, `offset` is the absolute position of the window's first byte
in the containing buffer (0 for an unbounded stream) and `cursor` is the
relative reading position. -/
structure Stream where
  data : List Nat
  offset : Nat
  cursor : Nat
deriving DecidableEq, Repr

/-- Modelled from the spec: the error kind.  `UnknownToken` carries the
absolute byte offset at which classification failed; line/column are
derived from it lazily by `gen_line_col`. -/
inductive Error where
  | UnknownToken (pos : Nat)
deriving DecidableEq, Repr

/-- Modelled from the spec: the 1-based line/column record attached to
reported errors. -/
structure ErrorPos where
  line : Nat
  col : Nat
deriving DecidableEq, Repr

/-- Modelled from the spec: line/column of an absolute byte offset,
1-based, counting LF bytes as line breaks and columns in bytes. -/
def gen_line_col (buf : List Nat) (off : Nat) : ErrorPos :=
  let pre := buf.take off
  { line := pre.count 10 + 1
    col := (pre.reverse.takeWhile (fun c => c != 10)).length + 1 }

namespace Stream

/-- The bytes not yet consumed (within the window). -/
def rest (s : Stream) : List Nat :=
  s.data.drop s.cursor

/-- Modelled from the spec: absolute reading position. -/
def pos (s : Stream) : Nat :=
  s.offset + s.cursor

/-- Modelled from the spec: error position of the current byte (the
absolute offset; see `gen_line_col` for the line/column view). -/
def gen_error_pos (s : Stream) : Nat :=
  s.offset + s.cursor

/-- Modelled from the spec: the cursor sits at the window's end. -/
def at_end (s : Stream) : Bool :=
  s.rest.isEmpty

/-- Modelled from the spec: current byte, meaningful only when not at
the end (the source calls this only behind an `at_end` guard; past the
window it is undefined and modelled as 0 here). -/
def curr_char_raw (s : Stream) : Nat :=
  s.rest.headD 0

/-- Modelled from the spec: unchecked advance. -/
def advance_raw (n : Nat) (s : Stream) : Stream :=
  { s with cursor := s.cursor + n }

/-- Modelled from the spec: checked advance — error when it would move
past the window's end. -/
def advance (n : Nat) (s : Stream) : Stream × Except Error Unit :=
  if s.cursor + n ≤ s.data.length then (advance_raw n s, .ok ())
  else (s, .error (.UnknownToken s.gen_error_pos))

/-- Modelled from the spec: current byte or an end-of-stream error,
surfaced as `UnknownToken` at the current position. -/
def curr_char (s : Stream) : Except Error Nat :=
  if s.at_end then .error (.UnknownToken s.gen_error_pos)
  else .ok s.curr_char_raw

/-- Modelled from the spec: whether the current byte equals `b`, or an
end-of-stream error. -/
def is_char_eq (b : Nat) (s : Stream) : Except Error Bool :=
  if s.at_end then .error (.UnknownToken s.gen_error_pos)
  else .ok (s.curr_char_raw == b)

/-- Modelled from the spec: the current byte is ASCII whitespace. -/
def is_space_raw (s : Stream) : Bool :=
  is_space s.curr_char_raw

/-- Modelled from the spec: the current byte is an identifier byte. -/
def is_ident_raw (s : Stream) : Bool :=
  is_ident_char s.curr_char_raw

/-- Length of the leading whitespace run of a byte list. -/
def space_len : List Nat → Nat
  | [] => 0
  | c :: cs => if is_space c then space_len cs + 1 else 0

/-- Modelled from the spec: advance past ASCII whitespace. -/
def skip_spaces (s : Stream) : Stream :=
  advance_raw (space_len s.rest) s

/-- Index of the first occurrence of `b` in a byte list. -/
def scan_to (b : Nat) : List Nat → Option Nat
  | [] => none
  | c :: cs => if c == b then some 0 else (scan_to b cs).map (· + 1)

/-- Index of the first occurrence of any byte of `bs` in a byte list. -/
def scan_to_either (bs : List Nat) : List Nat → Option Nat
  | [] => none
  | c :: cs => if bs.contains c then some 0 else (scan_to_either bs cs).map (· + 1)

/-- Modelled from the spec: byte count up to the next `b`, or an error
when `b` does not occur before the window's end. -/
def length_to (b : Nat) (s : Stream) : Except Error Nat :=
  match scan_to b s.rest with
  | some n => .ok n
  | none => .error (.UnknownToken s.gen_error_pos)

/-- Modelled from the spec: byte count up to the first occurrence of any
byte in `bs`, or an error when none occurs before the window's end. -/
def length_to_either (bs : List Nat) (s : Stream) : Except Error Nat :=
  match scan_to_either bs s.rest with
  | some n => .ok n
  | none => .error (.UnknownToken s.gen_error_pos)

/-- Modelled from the spec: read the next `n` bytes as a slice,
advancing the cursor. -/
def read_raw_str (n : Nat) (s : Stream) : Stream × List Nat :=
  (advance_raw n s, s.rest.take n)

/-- Modelled from the spec: the slice between two earlier-recorded
cursor positions (the source records absolute positions and slices
between them; here the equivalent relative cursors are recorded). -/
def slice_region_raw_str (a b : Nat) (s : Stream) : List Nat :=
  (s.data.drop a).take (b - a)

/-- Modelled from the spec: unbounded construction over a byte buffer. -/
def new (text : List Nat) : Stream :=
  { data := text, offset := 0, cursor := 0 }

/-- Modelled from the spec: bounded construction — the stream reads the
window `[start, stop)` of `text` and reports absolute positions. -/
def new_bound (text : List Nat) (start stop : Nat) : Stream :=
  { data := (text.drop start).take (stop - start), offset := start, cursor := 0 }

end Stream

/-- CSS combinator (tokenizer.rs, `Combinator`). -/
inductive Combinator where
  | Space
  | GreaterThan
  | Plus
  | Tilde
deriving DecidableEq, Repr

/-- CSS token (tokenizer.rs, `Token`).  String payloads are byte slices
of the input. -/
inductive Token where
  | UniversalSelector
  | TypeSelector (s : List Nat)
  | IdSelector (s : List Nat)
  | ClassSelector (s : List Nat)
  | AttributeSelector (s : List Nat)
  | PseudoClass (selector : List Nat) (value : Option (List Nat))
  | Combinator (c : SimpleCss.Combinator)
  | Comma
  | BlockStart
  | BlockEnd
  | Declaration (name : List Nat) (value : List Nat)
  | AtRule (s : List Nat)
  | DeclarationStr (s : List Nat)
  | AtStr (s : List Nat)
  | DoublePseudoClass (selector : List Nat) (value : Option (List Nat))
  | EndOfStream
deriving DecidableEq, Repr

/-- Tokenizer mode (tokenizer.rs, `State`). -/
inductive State where
  | Rule
  | Declaration
  | DeclarationRule
deriving DecidableEq, Repr

/-- Tokenizer state (tokenizer.rs, `Tokenizer`).  The nesting stack is a
list grown at the head; the recorded booleans are never read back by the
engine, only the depth and emptiness are. -/
structure Tokenizer where
  stream : Stream
  state : State
  after_selector : Bool
  has_at_rule : Bool
  at_start : Bool
  nesting_stack : List Bool
deriving DecidableEq, Repr

/-- Constructs a new tokenizer (tokenizer.rs, `Tokenizer::new`), over
the bytes of the text. -/
def Tokenizer.new (text : List Nat) : Tokenizer :=
  { stream := Stream.new text
    state := .Rule
    after_selector := false
    has_at_rule := false
    at_start := true
    nesting_stack := [] }

/-- Constructs a new bounded tokenizer (tokenizer.rs,
`Tokenizer::new_bound`). -/
def Tokenizer.new_bound (text : List Nat) (start stop : Nat) : Tokenizer :=
  { stream := Stream.new_bound text start stop
    state := .Rule
    after_selector := false
    has_at_rule := false
    at_start := true
    nesting_stack := [] }

/-- Current absolute position (tokenizer.rs, `Tokenizer::pos`). -/
def Tokenizer.pos (t : Tokenizer) : Nat :=
  t.stream.pos

/-- Convenience: the bytes of an ASCII string literal. -/
def bytes (s : String) : List Nat :=
  s.data.map Char.toNat

/-- One tokenizer step: the updated state and the produced token or error.
The source mutates `self` in place and returns `Result<Token, Error>`;
mutations already made before an error persist, so the state is returned
alongside the error as well. -/
abbrev TkStep := Tokenizer × Except Error Token

/-- Length of the leading identifier-byte run of a byte list. -/
def ident_len : List Nat → Nat
  | [] => 0
  | c :: cs => if is_ident_char c then ident_len cs + 1 else 0

/-- Tokenizer::consume_ident — advance over identifier bytes and return
the consumed slice; an empty run is an `UnknownToken` error at the
current position. -/
def consume_ident (s : Stream) : Stream × Except Error (List Nat) :=
  let n := ident_len s.rest
  if n == 0 then (s, .error (.UnknownToken s.gen_error_pos))
  else (s.advance_raw n, .ok (s.rest.take n))

/-- Scan loop of Tokenizer::consume_comment — the leading `/*` has been
consumed; repeatedly jump to the next `*` and test for a following `/`.
`none` means fuel exhaustion only. -/
def comment_loop : Nat → Stream → Option (Stream × Except Error Bool)
  | 0, _ => none
  | fuel + 1, s =>
    if s.at_end then some (s, .ok true)
    else
      match s.length_to 42 with
      | .error e => some (s, .error e)
      | .ok n =>
        match s.advance (n + 1) with
        | (s1, .error e) => some (s1, .error e)
        | (s1, .ok _) =>
          match s1.is_char_eq 47 with
          | .error e => some (s1, .error e)
          | .ok b =>
            if b then some (s1.advance_raw 1, .ok true)
            else comment_loop fuel s1

/-- Tokenizer::consume_comment — the caller is at `/`; returns whether a
complete `/* ... */` block comment was consumed. -/
def consume_comment (fuel : Nat) (s : Stream) : Option (Stream × Except Error Bool) :=
  let s1 := s.advance_raw 1
  match s1.is_char_eq 42 with
  | .error e => some (s1, .error e)
  | .ok b =>
    if b then comment_loop fuel (s1.advance_raw 1)
    else some (s1, .ok false)

/-- Quoted-string skip loop of Tokenizer::consume_parenthesized_content:
consume bytes up to the closing quote, honoring backslash escapes. -/
def quote_loop : Nat → Nat → Stream → Option Stream
  | 0, _, _ => none
  | fuel + 1, q, s =>
    if s.at_end then some s
    else
      let c := s.curr_char_raw
      let s1 := s.advance_raw 1
      if c == q then some s1
      else if c == 92 && !s1.at_end then quote_loop fuel q (s1.advance_raw 1)
      else quote_loop fuel q s1

/-- Balanced-group loop of Tokenizer::consume_parenthesized_content:
track parenthesis depth, skipping quoted strings. -/
def paren_loop : Nat → Nat → Stream → Option (Stream × Nat)
  | 0, _, _ => none
  | fuel + 1, depth, s =>
    if s.at_end || depth == 0 then some (s, depth)
    else
      match s.curr_char_raw with
      | 40 => paren_loop fuel (depth + 1) (s.advance_raw 1)
      | 41 => paren_loop fuel (depth - 1) (s.advance_raw 1)
      | 34 =>
        match quote_loop fuel 34 (s.advance_raw 1) with
        | none => none
        | some s1 => paren_loop fuel depth s1
      | 39 =>
        match quote_loop fuel 39 (s.advance_raw 1) with
        | none => none
        | some s1 => paren_loop fuel depth s1
      | _ => paren_loop fuel depth (s.advance_raw 1)

/-- Tokenizer::consume_parenthesized_content — requires the current byte
to be `(`; reads a balanced group including the outer parentheses. -/
def consume_parenthesized_content (fuel : Nat) (s : Stream) :
    Option (Stream × Except Error (List Nat)) :=
  match s.is_char_eq 40 with
  | .error e => some (s, .error e)
  | .ok b =>
    if !b then some (s, .error (.UnknownToken s.gen_error_pos))
    else
      let start := s.cursor
      match paren_loop fuel 1 (s.advance_raw 1) with
      | none => none
      | some (s1, depth) =>
        if depth != 0 then some (s1, .error (.UnknownToken s1.gen_error_pos))
        else some (s1.skip_spaces, .ok (s1.slice_region_raw_str start s1.cursor))

/-- Index (from the front) of the last element satisfying `p`, mirroring
the `rposition` call used to right-trim declaration values. -/
def rposition (p : Nat → Bool) : List Nat → Option Nat
  | [] => none
  | c :: cs =>
    match rposition p cs with
    | some i => some (i + 1)
    | none => if p c then some 0 else none

/-- Trailing `;`-separator loop of Tokenizer::consume_declaration:
consume `;` runs with interleaved whitespace after a declaration value. -/
def semi_loop : Nat → Stream → Option (Stream × Except Error Unit)
  | 0, _ => none
  | fuel + 1, s =>
    match s.is_char_eq 59 with
    | .error e => some (s, .error e)
    | .ok b =>
      if b then semi_loop fuel ((s.advance_raw 1).skip_spaces)
      else some (s, .ok ())

/-- The `:` branch shared verbatim by Tokenizer::consume_rule and
Tokenizer::consume_declaration: pseudo-class or pseudo-element, with an
optional parenthesized argument read up to the next `)`. -/
def consume_pseudo (t : Tokenizer) : TkStep :=
  let t := { t with after_selector := true, has_at_rule := false }
  let s1 := t.stream.advance_raw 1
  match s1.is_char_eq 58 with
  | .error e => ({ t with stream := s1 }, .error e)
  | .ok dbl =>
    let s2 := if dbl then s1.advance_raw 1 else s1
    match consume_ident s2 with
    | (s3, .error e) => ({ t with stream := s3 }, .error e)
    | (s3, .ok s) =>
      match s3.curr_char with
      | .ok 40 =>
        let s4 := s3.advance_raw 1
        match s4.length_to 41 with
        | .error e => ({ t with stream := s4 }, .error e)
        | .ok n =>
          let (s5, inner) := s4.read_raw_str n
          let s6 := s5.advance_raw 1
          ({ t with stream := s6 },
           .ok (if dbl then .DoublePseudoClass s (some inner) else .PseudoClass s (some inner)))
      | _ =>
        ({ t with stream := s3 },
         .ok (if dbl then .DoublePseudoClass s none else .PseudoClass s none))

/-- The `.` branch shared by both consumers: class selector. -/
def consume_class (t : Tokenizer) : TkStep :=
  let t := { t with after_selector := true, has_at_rule := false }
  match consume_ident (t.stream.advance_raw 1) with
  | (s1, .error e) => ({ t with stream := s1 }, .error e)
  | (s1, .ok s) => ({ t with stream := s1 }, .ok (.ClassSelector s))

/-- The `#` branch shared by both consumers: id selector. -/
def consume_id (t : Tokenizer) : TkStep :=
  let t := { t with after_selector := true, has_at_rule := false }
  match consume_ident (t.stream.advance_raw 1) with
  | (s1, .error e) => ({ t with stream := s1 }, .error e)
  | (s1, .ok s) => ({ t with stream := s1 }, .ok (.IdSelector s))

/-- The `*` branch shared by both consumers: universal selector. -/
def consume_star (t : Tokenizer) : TkStep :=
  ({ t with after_selector := true, has_at_rule := false
            stream := (t.stream.advance_raw 1).skip_spaces },
   .ok .UniversalSelector)

/-- The `[` branch shared by both consumers: attribute selector, raw up
to the first `]`. -/
def consume_attribute (t : Tokenizer) : TkStep :=
  let t := { t with after_selector := true, has_at_rule := false }
  let s1 := t.stream.advance_raw 1
  match s1.length_to 93 with
  | .error e => ({ t with stream := s1 }, .error e)
  | .ok n =>
    let (s2, s) := s1.read_raw_str n
    ({ t with stream := (s2.advance_raw 1).skip_spaces }, .ok (.AttributeSelector s))

/-- The `,` branch shared by both consumers. -/
def consume_comma (t : Tokenizer) : TkStep :=
  ({ t with after_selector := false, has_at_rule := false
            stream := (t.stream.advance_raw 1).skip_spaces },
   .ok .Comma)

/-- The `(` branch shared by both consumers (taken only while an at-rule
head is open): a balanced parenthesized group emitted as `AtStr`. -/
def consume_at_paren (fuel : Nat) (t : Tokenizer) : Option TkStep :=
  match consume_parenthesized_content fuel t.stream with
  | none => none
  | some (s1, .error e) => some ({ t with stream := s1 }, .error e)
  | some (s1, .ok s) => some ({ t with stream := s1, after_selector := true }, .ok (.AtStr s))

/-- The `/` branch shared by both consumers: on a complete comment the
engine re-enters `parse_next` (passed here as `pn`), otherwise the byte
is an `UnknownToken`. -/
def consume_slash (fuel : Nat) (pn : Tokenizer → Option TkStep) (t : Tokenizer) : Option TkStep :=
  match consume_comment fuel t.stream with
  | none => none
  | some (s1, .error e) => some ({ t with stream := s1 }, .error e)
  | some (s1, .ok b) =>
    if b then pn { t with stream := s1 }
    else some ({ t with stream := s1 }, .error (.UnknownToken s1.gen_error_pos))

/-- The `>`/`+`/`~` branches of Tokenizer::consume_rule: a combinator is
only legal after a completed selector. -/
def rule_combinator (t : Tokenizer) (c : Combinator) : TkStep :=
  if t.after_selector then
    ({ t with after_selector := false, has_at_rule := false
              stream := (t.stream.advance_raw 1).skip_spaces },
     .ok (.Combinator c))
  else (t, .error (.UnknownToken t.stream.gen_error_pos))

/-- The `>`/`+`/`~` branches of Tokenizer::consume_declaration: emitted
unconditionally in nested context. -/
def decl_combinator (t : Tokenizer) (c : Combinator) : TkStep :=
  ({ t with after_selector := false, has_at_rule := false
            stream := (t.stream.advance_raw 1).skip_spaces },
   .ok (.Combinator c))

/-- Identifier tail of Tokenizer::consume_rule's default arm: an ident
is an `AtStr` inside an at-rule head and a `TypeSelector` otherwise. -/
def consume_rule_ident (t : Tokenizer) : TkStep :=
  match consume_ident t.stream with
  | (s1, .error e) => ({ t with stream := s1 }, .error e)
  | (s1, .ok s) =>
    if t.has_at_rule then
      ({ t with stream := s1, after_selector := true, has_at_rule := true }, .ok (.AtStr s))
    else
      ({ t with stream := s1, after_selector := true, has_at_rule := false }, .ok (.TypeSelector s))

/-- Default arm of Tokenizer::consume_rule: whitespace handling (possible
descendant combinator, or a re-entry into `parse_next`) followed by the
identifier tail. -/
def consume_rule_other (pn : Tokenizer → Option TkStep) (t : Tokenizer) : Option TkStep :=
  if t.stream.is_space_raw then
    let st := t.stream.skip_spaces
    if !t.after_selector then pn { t with stream := st }
    else
      match st.curr_char with
      | .error e => some ({ t with stream := st }, .error e)
      | .ok c =>
        if c == 123 || c == 47 || c == 62 || c == 43 || c == 126 || c == 42 || c == 40 then
          pn { t with stream := st }
        else
          if !t.has_at_rule then
            some ({ t with stream := st, after_selector := false }, .ok (.Combinator .Space))
          else some (consume_rule_ident { t with stream := st, after_selector := false })
  else some (consume_rule_ident t)

/-- Tokenizer::consume_rule — classify the current byte in rule-head
mode.  `pn` is the re-entry into `parse_next` taken by the comment and
whitespace paths. -/
def consume_rule (fuel : Nat) (pn : Tokenizer → Option TkStep) (t : Tokenizer) : Option TkStep :=
  match t.stream.curr_char_raw with
  | 64 =>
    let t := { t with after_selector := true, has_at_rule := true }
    match consume_ident (t.stream.advance_raw 1) with
    | (s1, .error e) => some ({ t with stream := s1 }, .error e)
    | (s1, .ok s) => some ({ t with stream := s1 }, .ok (.AtRule s))
  | 35 => some (consume_id t)
  | 46 => some (consume_class t)
  | 42 => some (consume_star t)
  | 58 => some (consume_pseudo t)
  | 91 => some (consume_attribute t)
  | 44 => some (consume_comma t)
  | 123 =>
    some ({ t with nesting_stack := t.has_at_rule :: t.nesting_stack
                   after_selector := false, has_at_rule := false
                   state := .Declaration
                   stream := t.stream.advance_raw 1 },
          .ok .BlockStart)
  | 62 => some (rule_combinator t .GreaterThan)
  | 43 => some (rule_combinator t .Plus)
  | 126 => some (rule_combinator t .Tilde)
  | 47 => consume_slash fuel pn t
  | 40 => if t.has_at_rule then consume_at_paren fuel t else consume_rule_other pn t
  | _ => consume_rule_other pn t

/-- Comment step shared by the declaration path: when the current byte
is `/` a complete comment must follow, otherwise the byte errors; when
it is not `/` nothing happens. -/
def maybe_comment (fuel : Nat) (st : Stream) : Option (Stream × Except Error Unit) :=
  match st.is_char_eq 47 with
  | .error e => some (st, .error e)
  | .ok slash =>
    if slash then
      match consume_comment fuel st with
      | none => none
      | some (s1, .error e) => some (s1, .error e)
      | some (s1, .ok b) =>
        if b then some (s1, .ok ())
        else some (s1, .error (.UnknownToken s1.gen_error_pos))
    else some (st, .ok ())

/-- Value tail of Tokenizer::consume_declaration: past the `:` — an
optional comment, the scan to `;` or `}` (zero length errors), the
right-trim of trailing whitespace, and the trailing `;` separators. -/
def consume_decl_value (fuel : Nat) (t : Tokenizer) (name : List Nat) (st0 : Stream) :
    Option TkStep :=
  match maybe_comment fuel st0 with
  | none => none
  | some (st, .error e) => some ({ t with stream := st }, .error e)
  | some (st, .ok _) =>
    match st.length_to_either [59, 125] with
    | .error e => some ({ t with stream := st }, .error e)
    | .ok n =>
      if n == 0 then some ({ t with stream := st }, .error (.UnknownToken st.gen_error_pos))
      else
        let (st1, v0) := st.read_raw_str n
        let v := match rposition (fun c => !is_space c) v0 with
          | some p => v0.take (p + 1)
          | none => v0
        match semi_loop fuel st1.skip_spaces with
        | none => none
        | some (st2, .error e) => some ({ t with stream := st2 }, .error e)
        | some (st2, .ok _) => some ({ t with stream := st2 }, .ok (.Declaration name v))

/-- Continuation of Tokenizer::consume_declaration's default arm after
the leading identifier: an optional comment, then the `{`, non-`:` and
`:` sub-cases. -/
def consume_decl_after_name (fuel : Nat) (t : Tokenizer) (name : List Nat) (st0 : Stream) :
    Option TkStep :=
  match maybe_comment fuel st0 with
  | none => none
  | some (st, .error e) => some ({ t with stream := st }, .error e)
  | some (st, .ok _) =>
    match st.is_char_eq 123 with
    | .error e => some ({ t with stream := st }, .error e)
    | .ok brace =>
      if brace then
        if name.isEmpty then some ({ t with stream := st }, .error (.UnknownToken st.gen_error_pos))
        else some ({ t with stream := st, after_selector := true }, .ok (.TypeSelector name))
      else
        match st.is_char_eq 58 with
        | .error e => some ({ t with stream := st }, .error e)
        | .ok colon =>
          if !colon then
            some ({ t with stream := st, after_selector := true }, .ok (.TypeSelector name))
          else consume_decl_value fuel t name ((st.advance_raw 1).skip_spaces)

/-- Default arm of Tokenizer::consume_declaration: inside an at-rule
head an identifier is an `AtStr`; otherwise read a name and decide
between nested type selector and declaration. -/
def consume_decl_other (fuel : Nat) (t : Tokenizer) : Option TkStep :=
  if t.has_at_rule then
    match consume_ident t.stream with
    | (s1, .error e) => some ({ t with stream := s1 }, .error e)
    | (s1, .ok s) =>
      some ({ t with stream := s1.skip_spaces, after_selector := true }, .ok (.AtStr s))
  else
    match consume_ident t.stream with
    | (s1, .error e) => some ({ t with stream := s1 }, .error e)
    | (s1, .ok name) => consume_decl_after_name fuel t name s1.skip_spaces

/-- Tokenizer::consume_declaration — classify the current byte inside a
block, after skipping leading whitespace. -/
def consume_declaration (fuel : Nat) (pn : Tokenizer → Option TkStep) (t : Tokenizer) :
    Option TkStep :=
  let t := { t with stream := t.stream.skip_spaces }
  match t.stream.curr_char_raw with
  | 125 =>
    let ns := t.nesting_stack.tail
    let st :=
      if t.state == State.DeclarationRule then State.Declaration
      else if t.state == State.Declaration then
        (if ns.isEmpty then State.Rule else State.Declaration)
      else t.state
    some ({ t with nesting_stack := ns, state := st, has_at_rule := false
                   stream := (t.stream.advance_raw 1).skip_spaces },
          .ok .BlockEnd)
  | 123 =>
    let st :=
      if t.state == State.Rule then State.Declaration
      else if t.state == State.Declaration then State.DeclarationRule
      else t.state
    some ({ t with nesting_stack := t.has_at_rule :: t.nesting_stack
                   has_at_rule := false, state := st
                   stream := (t.stream.advance_raw 1).skip_spaces },
          .ok .BlockStart)
  | 64 =>
    let t := { t with after_selector := true, has_at_rule := true }
    match consume_ident (t.stream.advance_raw 1) with
    | (s1, .error e) => some ({ t with stream := s1 }, .error e)
    | (s1, .ok s) => some ({ t with stream := s1.skip_spaces }, .ok (.AtRule s))
  | 58 => some (consume_pseudo t)
  | 46 => some (consume_class t)
  | 35 => some (consume_id t)
  | 42 => some (consume_star t)
  | 91 => some (consume_attribute t)
  | 62 => some (decl_combinator t .GreaterThan)
  | 43 => some (decl_combinator t .Plus)
  | 126 => some (decl_combinator t .Tilde)
  | 44 => some (consume_comma t)
  | 40 => if t.has_at_rule then consume_at_paren fuel t else consume_decl_other fuel t
  | 47 => consume_slash fuel pn t
  | _ => consume_decl_other fuel t

/-- Tokenizer::parse_next — skip leading whitespace on the very first
call, return `EndOfStream` at the window's end, and otherwise dispatch
on the mode.  The fuel bounds the re-entry depth and the internal scan
loops; `none` means fuel exhaustion only. -/
def parse_next : Nat → Tokenizer → Option TkStep
  | 0, _ => none
  | fuel + 1, t =>
    let t := if t.at_start then { t with stream := t.stream.skip_spaces, at_start := false } else t
    if t.stream.at_end then some (t, .ok .EndOfStream)
    else
      match t.state with
      | .Rule => consume_rule fuel (fun u => parse_next fuel u) t
      | .Declaration => consume_declaration fuel (fun u => parse_next fuel u) t
      | .DeclarationRule => consume_declaration fuel (fun u => parse_next fuel u) t

/-- Results of `n` successive `parse_next` calls, each with the given
fuel; `none` on fuel exhaustion. -/
def take_tokens : Nat → Nat → Tokenizer → Option (List (Except Error Token))
  | 0, _, _ => some []
  | n + 1, fuel, t =>
    match parse_next fuel t with
    | none => none
    | some (t1, r) => (take_tokens n fuel t1).map (r :: ·)

/-- The tokenizer state after `n` successive `parse_next` calls. -/
def step_n : Nat → Nat → Tokenizer → Option Tokenizer
  | 0, _, t => some t
  | n + 1, fuel, t =>
    match parse_next fuel t with
    | none => none
    | some (t1, _) => step_n n fuel t1

/-- The byte set whose members, seen after a whitespace run that follows
a completed selector, suppress the descendant combinator (the `{ / > + ~
* (` group of `consume_rule`). -/
def suppress (c : Nat) : Bool :=
  c == 123 || c == 47 || c == 62 || c == 43 || c == 126 || c == 42 || c == 40

/-- State immediately after a descendant combinator `Combinator(Space)`
has been emitted: still in the same mode, both flags cleared, the cursor
on a byte that is neither whitespace nor a member of the suppressed
set. -/
def SpacePost (t0 t : Tokenizer) : Prop :=
  t.state = t0.state ∧ t.after_selector = false ∧ t.has_at_rule = false ∧
  t.stream.at_end = false ∧ is_space t.stream.curr_char_raw = false ∧
  suppress t.stream.curr_char_raw = false

/-- Shape of every emitted declaration value: nonempty, free of the `;`
and `}` scan terminators, and right-trimmed unless it consists entirely
of whitespace. -/
def DeclGood (v : List Nat) : Prop :=
  v ≠ [] ∧ 59 ∉ v ∧ 125 ∉ v ∧
  ((∀ b ∈ v, is_space b = true) ∨ is_space (v.getLastD 0) = false)

/-- Mode/stack correspondence: rule mode exactly when no block is open,
declaration mode only with at least one open block, and the transient
`DeclarationRule` marker only with at least two. -/
def Inv (t : Tokenizer) : Prop :=
  (t.state = State.Rule ↔ t.nesting_stack = []) ∧
  (t.state = State.Declaration → 1 ≤ t.nesting_stack.length) ∧
  (t.state = State.DeclarationRule → 2 ≤ t.nesting_stack.length)

/-- Everything the claims need about one directly-produced consumer
step `st` from entry state `t0` (forwarded `parse_next` re-entries are
handled separately). -/
def Facts (t0 : Tokenizer) (st : TkStep) : Prop :=
  st.1.at_start = t0.at_start ∧
  st.2 ≠ .ok .EndOfStream ∧
  (Inv t0 → Inv st.1) ∧
  (st.2 = .ok .BlockStart → st.1.nesting_stack.length = t0.nesting_stack.length + 1) ∧
  (Inv t0 → st.2 = .ok .BlockEnd →
    t0.nesting_stack.length = st.1.nesting_stack.length + 1) ∧
  (∀ tok, st.2 = .ok tok → tok ≠ .BlockStart → tok ≠ .BlockEnd →
    st.1.nesting_stack.length = t0.nesting_stack.length) ∧
  (st.2 = .ok (.Combinator .Space) → t0.state = State.Rule ∧ SpacePost t0 st.1) ∧
  (∀ s v, st.2 = .ok (.PseudoClass s (some v)) → 41 ∉ v) ∧
  (∀ s v, st.2 = .ok (.DoublePseudoClass s (some v)) → 41 ∉ v) ∧
  (∀ n v, st.2 = .ok (.Declaration n v) → DeclGood v)

/-- Tokenizer states reachable from a constructor by `parse_next`
steps. -/
inductive Reachable : Tokenizer → Prop
  | of_new (text : List Nat) : Reachable (Tokenizer.new text)
  | of_new_bound (text : List Nat) (start stop : Nat) :
      Reachable (Tokenizer.new_bound text start stop)
  | step {t t1 : Tokenizer} {fuel : Nat} {r : Except Error Token} :
      Reachable t → parse_next fuel t = some (t1, r) → Reachable t1

/-- Parse-level variant of `SpacePost` for the state right after
`parse_next` has emitted a descendant combinator. -/
def SpaceReady (t : Tokenizer) : Prop :=
  t.state = State.Rule ∧ t.after_selector = false ∧ t.has_at_rule = false ∧
  t.at_start = false ∧ t.stream.at_end = false ∧
  is_space t.stream.curr_char_raw = false ∧ suppress t.stream.curr_char_raw = false

/-- Everything the claims need about one successful `parse_next` step. -/
def StepFacts (t : Tokenizer) (st : TkStep) : Prop :=
  st.1.at_start = false ∧
  (st.2 = .ok .EndOfStream → st.1.stream.at_end = true) ∧
  (Inv t → Inv st.1) ∧
  (st.2 = .ok .BlockStart → st.1.nesting_stack.length = t.nesting_stack.length + 1) ∧
  (Inv t → st.2 = .ok .BlockEnd → t.nesting_stack.length = st.1.nesting_stack.length + 1) ∧
  (∀ tok, st.2 = .ok tok → tok ≠ .BlockStart → tok ≠ .BlockEnd →
    st.1.nesting_stack.length = t.nesting_stack.length) ∧
  (st.2 = .ok (.Combinator .Space) → SpaceReady st.1) ∧
  (∀ s v, st.2 = .ok (.PseudoClass s (some v)) → 41 ∉ v) ∧
  (∀ s v, st.2 = .ok (.DoublePseudoClass s (some v)) → 41 ∉ v) ∧
  (∀ n v, st.2 = .ok (.Declaration n v) → DeclGood v)

/-- The token set the claims say may follow a descendant combinator. -/
def selector_token (tok : Token) : Bool :=
  match tok with
  | .TypeSelector _ | .IdSelector _ | .ClassSelector _ | .UniversalSelector
  | .AttributeSelector _ | .PseudoClass _ _ | .DoublePseudoClass _ _ => true
  | _ => false

/-- Tokens that can actually follow a descendant combinator: the
selector set plus at-rule openers and commas. -/
def after_space_token (tok : Token) : Bool :=
  match tok with
  | .TypeSelector _ | .IdSelector _ | .ClassSelector _ | .UniversalSelector
  | .AttributeSelector _ | .PseudoClass _ _ | .DoublePseudoClass _ _ => true
  | .AtRule _ | .Comma => true
  | _ => false

/-- The combinator token produced for the bytes `>`, `+`, `~`. -/
def combinator_of (c : Nat) : Combinator :=
  if c = 62 then .GreaterThan else if c = 43 then .Plus else .Tilde

/-! Offset parametricity, towards C9: the engine consults the window
offset only when reporting positions, so shifting the offset shifts
every reported error position and nothing else. -/

/-- Shift a stream's absolute offset by `o`. -/
def shift_stream (o : Nat) (s : Stream) : Stream :=
  { s with offset := o + s.offset }

/-- Shift a tokenizer's window offset by `o`. -/
def shift_tok (o : Nat) (t : Tokenizer) : Tokenizer :=
  { t with stream := shift_stream o t.stream }

/-- Shift an error's reported absolute position by `o`. -/
def shift_err (o : Nat) : Error → Error
  | .UnknownToken p => .UnknownToken (o + p)

/-- Shift the error positions of a result by `o`. -/
def shift_exc (o : Nat) : Except Error α → Except Error α
  | .error e => .error (shift_err o e)
  | .ok a => .ok a

/-- Shift a stream/result pair by `o`. -/
def shift_pair (o : Nat) (p : Stream × Except Error α) : Stream × Except Error α :=
  (shift_stream o p.1, shift_exc o p.2)

/-- Shift a tokenizer step by `o`. -/
def shift_tstep (o : Nat) (st : TkStep) : TkStep :=
  (shift_tok o st.1, shift_exc o st.2)

/-! Basic lemmas about the list-level scanners. -/

theorem space_len_head (l : List Nat) :
    l.drop (Stream.space_len l) = [] ∨ is_space ((l.drop (Stream.space_len l)).headD 0) = false := by
  induction l with
  | nil => simp
  | cons c cs ih =>
    by_cases hc : is_space c
    · simpa [Stream.space_len, hc] using ih
    · simp [Stream.space_len, hc]

theorem space_len_zero (l : List Nat) (h : is_space (l.headD 0) = false) :
    Stream.space_len l = 0 := by
  cases l with
  | nil => rfl
  | cons c cs =>
    simp only [List.headD_cons] at h
    simp [Stream.space_len, h]

theorem scan_to_spec (b : Nat) (l : List Nat) (n : Nat) (h : Stream.scan_to b l = some n) :
    n < l.length ∧ l.getD n 0 = b ∧ b ∉ l.take n := by
  induction l generalizing n with
  | nil => simp [Stream.scan_to] at h
  | cons c cs ih =>
    by_cases hc : c = b
    · simp [Stream.scan_to, hc] at h
      subst h
      simp [hc]
    · simp [Stream.scan_to, hc] at h
      obtain ⟨m, hm, rfl⟩ := h
      obtain ⟨h1, h2, h3⟩ := ih m hm
      refine ⟨by simpa using Nat.succ_lt_succ h1, by simpa using h2, ?_⟩
      simp [List.take_succ_cons, h3]
      exact fun he => (hc he.symm).elim

theorem scan_to_either_spec (bs : List Nat) (l : List Nat) (n : Nat)
    (h : Stream.scan_to_either bs l = some n) :
    n < l.length ∧ l.getD n 0 ∈ bs ∧ ∀ c ∈ bs, c ∉ l.take n := by
  induction l generalizing n with
  | nil => simp [Stream.scan_to_either] at h
  | cons c cs ih =>
    by_cases hc : c ∈ bs
    · simp [Stream.scan_to_either, hc] at h
      subst h
      simpa using hc
    · simp [Stream.scan_to_either, hc] at h
      obtain ⟨m, hm, rfl⟩ := h
      obtain ⟨h1, h2, h3⟩ := ih m hm
      refine ⟨by simpa using Nat.succ_lt_succ h1, by simpa using h2, ?_⟩
      intro x hx
      simp [List.take_succ_cons]
      constructor
      · intro he
        subst he
        exact hc hx
      · exact h3 x hx

theorem rposition_none (p : Nat → Bool) (l : List Nat) (h : rposition p l = none) :
    ∀ x ∈ l, p x = false := by
  induction l with
  | nil => simp
  | cons c cs ih =>
    intro x hx
    rcases List.mem_cons.mp hx with rfl | hx
    · unfold rposition at h
      rcases hr : rposition p cs with _ | i
      · simp [hr] at h
        simpa using h
      · simp [hr] at h
    · unfold rposition at h
      rcases hr : rposition p cs with _ | i
      · exact ih hr x hx
      · simp [hr] at h

theorem rposition_some (p : Nat → Bool) (l : List Nat) (i : Nat)
    (h : rposition p l = some i) : i < l.length ∧ p (l.getD i 0) = true := by
  induction l generalizing i with
  | nil => simp [rposition] at h
  | cons c cs ih =>
    unfold rposition at h
    rcases hr : rposition p cs with _ | j
    · rw [hr] at h
      by_cases hc : p c
      · simp [hc] at h
        subst h
        simpa using hc
      · simp [hc] at h
    · rw [hr] at h
      simp at h
      subst h
      obtain ⟨h1, h2⟩ := ih j hr
      exact ⟨by simpa using Nat.succ_lt_succ h1, by simpa using h2⟩

theorem getLastD_ne_nil (l : List Nat) (a b : Nat) (h : l ≠ []) :
    l.getLastD a = l.getLastD b := by
  cases l with
  | nil => exact absurd rfl h
  | cons c cs => rw [List.getLastD_cons, List.getLastD_cons]

theorem getLastD_take_succ (l : List Nat) (i : Nat) (h : i < l.length) :
    (l.take (i + 1)).getLastD 0 = l.getD i 0 := by
  induction l generalizing i with
  | nil => simp at h
  | cons c cs ih =>
    cases i with
    | zero => simp
    | succ j =>
      have hj : j < cs.length := by simpa using h
      have hne : cs.take (j + 1) ≠ [] := by
        have hlen : 0 < (cs.take (j + 1)).length := by
          rw [List.length_take]
          omega
        exact List.length_pos.mp hlen
      calc ((c :: cs).take (j + 1 + 1)).getLastD 0
          = (cs.take (j + 1)).getLastD c := by
            rw [List.take_succ_cons, List.getLastD_cons]
        _ = (cs.take (j + 1)).getLastD 0 := getLastD_ne_nil _ _ _ hne
        _ = cs.getD j 0 := ih j hj

/-! Basic lemmas about the stream primitives. -/

theorem rest_advance_raw (s : Stream) (n : Nat) :
    (s.advance_raw n).rest = s.rest.drop n := by
  simp [Stream.rest, Stream.advance_raw, List.drop_drop, Nat.add_comm]

theorem skip_spaces_rest (s : Stream) :
    s.skip_spaces.rest = s.rest.drop (Stream.space_len s.rest) := by
  simp [Stream.skip_spaces, rest_advance_raw]

theorem skip_spaces_classify (s : Stream) :
    s.skip_spaces.at_end = true ∨ s.skip_spaces.is_space_raw = false := by
  rcases space_len_head s.rest with h | h
  · left
    simp [Stream.at_end, skip_spaces_rest, h]
  · right
    simpa [Stream.is_space_raw, Stream.curr_char_raw, skip_spaces_rest] using h

theorem skip_spaces_id (s : Stream) (h : s.is_space_raw = false) :
    s.skip_spaces = s := by
  have h0 : Stream.space_len s.rest = 0 :=
    space_len_zero _ (by simpa [Stream.is_space_raw, Stream.curr_char_raw] using h)
  cases s
  simp [Stream.skip_spaces, Stream.advance_raw, h0]

theorem curr_char_ok (s : Stream) (c : Nat) (h : s.curr_char = .ok c) :
    s.at_end = false ∧ s.curr_char_raw = c := by
  unfold Stream.curr_char at h
  by_cases he : s.at_end
  · simp [he] at h
  · simp [he] at h
    simp [he, h]

theorem is_char_eq_ok (s : Stream) (b : Nat) (v : Bool) (h : s.is_char_eq b = .ok v) :
    s.at_end = false ∧ (s.curr_char_raw == b) = v := by
  unfold Stream.is_char_eq at h
  by_cases he : s.at_end
  · simp [he] at h
  · simp [he] at h
    simp [he, h]

/-! Facts lemmas for the shared branch helpers.  Each consumer branch
either produces its step directly — in which case `Facts` holds — or
forwards a `parse_next` re-entry on a state differing only in the
stream. -/

theorem facts_plain (t t1 : Tokenizer) (r : Except Error Token)
    (hstart : t1.at_start = t.at_start) (hstate : t1.state = t.state)
    (hstack : t1.nesting_stack = t.nesting_stack)
    (heos : r ≠ .ok .EndOfStream)
    (hbs : r ≠ .ok .BlockStart) (hbe : r ≠ .ok .BlockEnd)
    (hsp : r = .ok (.Combinator .Space) → t.state = State.Rule ∧ SpacePost t t1)
    (hps : ∀ s v, r = .ok (.PseudoClass s (some v)) → 41 ∉ v)
    (hdps : ∀ s v, r = .ok (.DoublePseudoClass s (some v)) → 41 ∉ v)
    (hdecl : ∀ n v, r = .ok (.Declaration n v) → DeclGood v) :
    Facts t (t1, r) := by
  refine ⟨hstart, heos, ?_, ?_, ?_, ?_, hsp, hps, hdps, hdecl⟩
  · intro hi
    unfold Inv at hi ⊢
    rw [hstate, hstack]
    exact hi
  · intro h
    exact absurd h hbs
  · intro _ h
    exact absurd h hbe
  · intro tok _ _ _
    rw [hstack]

theorem length_to_ok (s : Stream) (b n : Nat) (h : s.length_to b = .ok n) :
    Stream.scan_to b s.rest = some n := by
  unfold Stream.length_to at h
  rcases hs : Stream.scan_to b s.rest with _ | m <;> rw [hs] at h
  · simp at h
  · simpa using h

theorem length_to_either_ok (s : Stream) (bs : List Nat) (n : Nat)
    (h : s.length_to_either bs = .ok n) :
    Stream.scan_to_either bs s.rest = some n := by
  unfold Stream.length_to_either at h
  rcases hs : Stream.scan_to_either bs s.rest with _ | m <;> rw [hs] at h
  · simp at h
  · simpa using h

theorem consume_pseudo_facts (t : Tokenizer) : Facts t (consume_pseudo t) := by
  unfold consume_pseudo
  dsimp only
  split
  · apply facts_plain <;> simp
  · rename_i dbl heq
    split
    · apply facts_plain <;> simp
    · rename_i s3 s heq2
      split
      · rename_i heq3
        split
        · apply facts_plain <;> simp
        · rename_i n heq4
          have hmem : 41 ∉ (Stream.advance_raw 1 s3).rest.take n :=
            (scan_to_spec _ _ _ (length_to_ok _ _ _ heq4)).2.2
          cases dbl <;>
            (refine facts_plain _ _ _ ?_ ?_ ?_ ?_ ?_ ?_ ?_ ?_ ?_ ?_ <;>
              simp [Stream.read_raw_str]) <;>
            (intro hv; exact hmem hv)
      · cases dbl <;> (apply facts_plain <;> simp)

theorem consume_class_facts (t : Tokenizer) : Facts t (consume_class t) := by
  unfold consume_class
  rcases h : consume_ident (t.stream.advance_raw 1) with ⟨s1, r⟩
  cases r <;>
    simp only [h] <;>
    exact facts_plain _ _ _ (by simp) (by simp) (by simp) (by simp) (by simp) (by simp)
      (by simp) (by simp) (by simp) (by simp)

theorem consume_id_facts (t : Tokenizer) : Facts t (consume_id t) := by
  unfold consume_id
  rcases h : consume_ident (t.stream.advance_raw 1) with ⟨s1, r⟩
  cases r <;>
    simp only [h] <;>
    exact facts_plain _ _ _ (by simp) (by simp) (by simp) (by simp) (by simp) (by simp)
      (by simp) (by simp) (by simp) (by simp)

theorem consume_star_facts (t : Tokenizer) : Facts t (consume_star t) := by
  unfold consume_star
  exact facts_plain _ _ _ (by simp) (by simp) (by simp) (by simp) (by simp) (by simp)
    (by simp) (by simp) (by simp) (by simp)

theorem consume_comma_facts (t : Tokenizer) : Facts t (consume_comma t) := by
  unfold consume_comma
  exact facts_plain _ _ _ (by simp) (by simp) (by simp) (by simp) (by simp) (by simp)
    (by simp) (by simp) (by simp) (by simp)

theorem consume_attribute_facts (t : Tokenizer) : Facts t (consume_attribute t) := by
  unfold consume_attribute
  rcases h : (t.stream.advance_raw 1).length_to 93 with e | n <;>
    simp only [h, Stream.read_raw_str] <;>
    exact facts_plain _ _ _ (by simp) (by simp) (by simp) (by simp) (by simp) (by simp)
      (by simp) (by simp) (by simp) (by simp)

theorem consume_rule_ident_facts (t : Tokenizer) : Facts t (consume_rule_ident t) := by
  unfold consume_rule_ident
  rcases h : consume_ident t.stream with ⟨s1, r⟩
  cases r <;> simp only [h]
  · exact facts_plain _ _ _ (by simp) (by simp) (by simp) (by simp) (by simp) (by simp)
      (by simp) (by simp) (by simp) (by simp)
  · by_cases ha : t.has_at_rule <;>
      simp only [ha, if_true, if_false] <;>
      exact facts_plain _ _ _ (by simp) (by simp) (by simp) (by simp) (by simp) (by simp)
        (by simp) (by simp) (by simp) (by simp)

theorem rule_combinator_facts (t : Tokenizer) (c : Combinator) (hc : c ≠ .Space) :
    Facts t (rule_combinator t c) := by
  unfold rule_combinator
  by_cases ha : t.after_selector <;> simp only [ha, if_true, if_false]
  · refine facts_plain _ _ _ (by simp) (by simp) (by simp) (by simp) (by simp) (by simp)
      ?_ (by simp) (by simp) (by simp)
    intro h
    simp at h
    exact absurd h hc
  · exact facts_plain _ _ _ (by simp) (by simp) (by simp) (by simp) (by simp) (by simp)
      (by simp) (by simp) (by simp) (by simp)

theorem decl_combinator_facts (t : Tokenizer) (c : Combinator) (hc : c ≠ .Space) :
    Facts t (decl_combinator t c) := by
  unfold decl_combinator
  refine facts_plain _ _ _ (by simp) (by simp) (by simp) (by simp) (by simp) (by simp)
    ?_ (by simp) (by simp) (by simp)
  intro h
  simp at h
  exact absurd h hc

theorem facts_congr (t t' : Tokenizer) (st : TkStep)
    (h1 : t'.at_start = t.at_start) (h2 : t'.state = t.state)
    (h3 : t'.nesting_stack = t.nesting_stack) (h : Facts t' st) : Facts t st := by
  unfold Facts SpacePost Inv at h ⊢
  rw [h1, h2, h3] at h
  exact h

theorem consume_at_paren_facts (fuel : Nat) (t : Tokenizer) (st : TkStep)
    (h : consume_at_paren fuel t = some st) : Facts t st := by
  unfold consume_at_paren at h
  split at h
  · cases h
  · injection h with h2
    subst h2
    apply facts_plain <;> simp
  · injection h with h2
    subst h2
    apply facts_plain <;> simp

theorem consume_slash_spec (fuel : Nat) (pn : Tokenizer → Option TkStep) (t : Tokenizer)
    (st : TkStep) (h : consume_slash fuel pn t = some st) :
    (∃ s2, pn { t with stream := s2 } = some st) ∨ Facts t st := by
  unfold consume_slash at h
  split at h
  · cases h
  · injection h with h2
    subst h2
    right
    apply facts_plain <;> simp
  · split at h
    · exact Or.inl ⟨_, h⟩
    · injection h with h2
      subst h2
      right
      apply facts_plain <;> simp

theorem decl_value_good (l : List Nat) (n : Nat) (hn : n ≠ 0)
    (hscan : Stream.scan_to_either [59, 125] l = some n) :
    DeclGood (match rposition (fun c => !is_space c) (l.take n) with
      | some p => (l.take n).take (p + 1)
      | none => l.take n) := by
  obtain ⟨hlt, hmem, hnotin⟩ := scan_to_either_spec _ _ _ hscan
  have h59 : 59 ∉ l.take n := hnotin 59 (by simp)
  have h125 : 125 ∉ l.take n := hnotin 125 (by simp)
  have hlen : (l.take n).length = n := by
    rw [List.length_take]
    omega
  have hne : l.take n ≠ [] := by
    intro hcontr
    rw [hcontr] at hlen
    simp at hlen
    omega
  rcases hr : rposition (fun c => !is_space c) (l.take n) with _ | p <;> simp only [hr]
  · refine ⟨hne, h59, h125, Or.inl ?_⟩
    intro b hb
    have := rposition_none _ _ hr b hb
    simpa using this
  · obtain ⟨hp, hpv⟩ := rposition_some _ _ _ hr
    refine ⟨?_, ?_, ?_, Or.inr ?_⟩
    · intro hcontr
      have hz : ((l.take n).take (p + 1)).length = 0 := by rw [hcontr]; rfl
      rw [List.length_take] at hz
      omega
    · intro hx
      exact h59 (List.take_subset _ _ hx)
    · intro hx
      exact h125 (List.take_subset _ _ hx)
    · rw [getLastD_take_succ _ _ hp]
      simpa using hpv

theorem consume_decl_value_facts (fuel : Nat) (t : Tokenizer) (name : List Nat) (st0 : Stream)
    (st : TkStep) (h : consume_decl_value fuel t name st0 = some st) : Facts t st := by
  unfold consume_decl_value at h
  split at h
  · cases h
  · injection h with h2
    subst h2
    apply facts_plain <;> simp
  · rename_i stm hmc
    split at h
    · injection h with h2
      subst h2
      apply facts_plain <;> simp
    · rename_i n hlen
      split at h
      · injection h with h2
        subst h2
        apply facts_plain <;> simp
      · rename_i hn0
        simp only [Stream.read_raw_str] at h
        split at h
        · cases h
        · injection h with h2
          subst h2
          apply facts_plain <;> simp
        · injection h with h2
          subst h2
          refine facts_plain _ _ _ (by simp) (by simp) (by simp) (by simp) (by simp) (by simp)
            (by simp) (by simp) (by simp) ?_
          intro nm v hv
          simp only [Except.ok.injEq, Token.Declaration.injEq] at hv
          rw [← hv.2]
          exact decl_value_good _ _ (by simpa using hn0) (length_to_either_ok _ _ _ hlen)

theorem consume_decl_after_name_facts (fuel : Nat) (t : Tokenizer) (name : List Nat)
    (st0 : Stream) (st : TkStep) (h : consume_decl_after_name fuel t name st0 = some st) :
    Facts t st := by
  unfold consume_decl_after_name at h
  split at h
  · cases h
  · injection h with h2
    subst h2
    apply facts_plain <;> simp
  · split at h
    · injection h with h2
      subst h2
      apply facts_plain <;> simp
    · split at h
      · split at h
        · injection h with h2
          subst h2
          apply facts_plain <;> simp
        · injection h with h2
          subst h2
          apply facts_plain <;> simp
      · split at h
        · injection h with h2
          subst h2
          apply facts_plain <;> simp
        · split at h
          · injection h with h2
            subst h2
            apply facts_plain <;> simp
          · exact consume_decl_value_facts _ _ _ _ _ h

theorem consume_rule_other_spec (pn : Tokenizer → Option TkStep) (t : Tokenizer) (st : TkStep)
    (hst : t.state = State.Rule) (h : consume_rule_other pn t = some st) :
    (∃ s2, pn { t with stream := s2 } = some st) ∨ Facts t st := by
  unfold consume_rule_other at h
  dsimp only at h
  by_cases hspace : t.stream.is_space_raw = true
  · rw [if_pos hspace] at h
    by_cases haf : t.after_selector = true
    · rw [if_neg (by simp [haf])] at h
      rcases hcq : (Stream.skip_spaces t.stream).curr_char with e | c <;> simp only [hcq] at h
      · injection h with h2
        subst h2
        right
        apply facts_plain <;> simp
      · by_cases hsup : (c == 123 || c == 47 || c == 62 || c == 43 || c == 126 ||
            c == 42 || c == 40) = true
        · rw [if_pos hsup] at h
          exact Or.inl ⟨_, h⟩
        · rw [if_neg hsup] at h
          by_cases hhar : t.has_at_rule = true
          · rw [if_neg (by simp [hhar])] at h
            injection h with h2
            subst h2
            right
            exact facts_congr t _ _ (by simp) (by simp) (by simp) (consume_rule_ident_facts _)
          · have hhar2 : t.has_at_rule = false := by simpa using hhar
            rw [if_pos (by simp [hhar2])] at h
            injection h with h2
            subst h2
            right
            refine facts_plain _ _ _ (by simp) (by simp) (by simp) (by simp) (by simp)
              (by simp) ?_ (by simp) (by simp) (by simp)
            intro _
            obtain ⟨hae, hcc⟩ := curr_char_ok _ _ hcq
            have hns : Stream.is_space_raw (t.stream.skip_spaces) = false := by
              rcases skip_spaces_classify t.stream with hc1 | hc1
              · rw [hc1] at hae
                cases hae
              · exact hc1
            refine ⟨hst, by simp [hst], by simp, by simp [hhar2], by simpa using hae, ?_, ?_⟩
            · simpa [Stream.is_space_raw] using hns
            · show suppress (Stream.curr_char_raw (Stream.skip_spaces t.stream)) = false
              rw [hcc]
              unfold suppress
              simpa using hsup
    · have haf2 : t.after_selector = false := by simpa using haf
      rw [if_pos (by simp [haf2])] at h
      exact Or.inl ⟨_, h⟩
  · rw [if_neg hspace] at h
    injection h with h2
    subst h2
    exact Or.inr (consume_rule_ident_facts t)

theorem consume_rule_spec (fuel : Nat) (pn : Tokenizer → Option TkStep) (t : Tokenizer)
    (st : TkStep) (hst : t.state = State.Rule) (h : consume_rule fuel pn t = some st) :
    (∃ s2, pn { t with stream := s2 } = some st) ∨ Facts t st := by
  unfold consume_rule at h
  dsimp only at h
  split at h
  · split at h <;> (injection h with h2; subst h2; right; apply facts_plain <;> simp)
  · injection h with h2
    subst h2
    exact Or.inr (consume_id_facts t)
  · injection h with h2
    subst h2
    exact Or.inr (consume_class_facts t)
  · injection h with h2
    subst h2
    exact Or.inr (consume_star_facts t)
  · injection h with h2
    subst h2
    exact Or.inr (consume_pseudo_facts t)
  · injection h with h2
    subst h2
    exact Or.inr (consume_attribute_facts t)
  · injection h with h2
    subst h2
    exact Or.inr (consume_comma_facts t)
  · injection h with h2
    subst h2
    right
    refine ⟨by simp, by simp, ?_, by simp, by simp, by simp, by simp, by simp, by simp, by simp⟩
    intro hi
    refine ⟨by simp, fun _ => by simp, fun hcontr => by simp at hcontr⟩
  · injection h with h2
    subst h2
    exact Or.inr (rule_combinator_facts t _ (by simp))
  · injection h with h2
    subst h2
    exact Or.inr (rule_combinator_facts t _ (by simp))
  · injection h with h2
    subst h2
    exact Or.inr (rule_combinator_facts t _ (by simp))
  · exact consume_slash_spec _ _ _ _ h
  · split at h
    · exact Or.inr (consume_at_paren_facts _ _ _ h)
    · exact consume_rule_other_spec _ _ _ hst h
  · exact consume_rule_other_spec _ _ _ hst h

theorem consume_decl_other_facts (fuel : Nat) (t : Tokenizer) (st : TkStep)
    (h : consume_decl_other fuel t = some st) : Facts t st := by
  unfold consume_decl_other at h
  split at h
  · split at h
    · injection h with h2
      subst h2
      apply facts_plain <;> simp
    · injection h with h2
      subst h2
      apply facts_plain <;> simp
  · split at h
    · injection h with h2
      subst h2
      apply facts_plain <;> simp
    · exact consume_decl_after_name_facts _ _ _ _ _ h

theorem consume_declaration_spec (fuel : Nat) (pn : Tokenizer → Option TkStep) (t : Tokenizer)
    (st : TkStep) (hst : t.state ≠ State.Rule) (h : consume_declaration fuel pn t = some st) :
    (∃ s2, pn { t with stream := s2 } = some st) ∨ Facts t st := by
  unfold consume_declaration at h
  dsimp only at h
  split at h
  · -- the `}` branch: pop and mode restore
    injection h with h2
    subst h2
    right
    refine ⟨by simp, by simp, ?_, by simp, ?_, by simp, by simp, by simp, by simp, by simp⟩
    · intro hi
      obtain ⟨hiff, hd, hdr⟩ := hi
      rcases hts : t.state with _ | _ | _
      · exact absurd hts hst
      · have h1 : 1 ≤ t.nesting_stack.length := hd hts
        rcases hstk : t.nesting_stack with _ | ⟨b, rest⟩
        · rw [hstk] at h1
          simp at h1
        · cases rest with
          | nil => refine ⟨by simp [hts, hstk], by simp [hts, hstk], by simp [hts, hstk]⟩
          | cons b2 r2 => refine ⟨by simp [hts, hstk], by simp [hts, hstk], by simp [hts, hstk]⟩
      · have h2 : 2 ≤ t.nesting_stack.length := hdr hts
        rcases hstk : t.nesting_stack with _ | ⟨b, rest⟩
        · rw [hstk] at h2
          simp at h2
        · have hr1 : 1 ≤ rest.length := by
            rw [hstk] at h2
            simp at h2
            omega
          refine ⟨?_, ?_, by simp [hts, hstk]⟩
          · simp only [hts, hstk]
            constructor
            · intro hc
              simp at hc
            · intro hc
              simp at hc
              rw [hc] at hr1
              simp at hr1
          · intro _
            simp only [hstk]
            simpa using hr1
    · intro hi _
      obtain ⟨hiff, hd, hdr⟩ := hi
      rcases hstk : t.nesting_stack with _ | ⟨b, rest⟩
      · exact absurd (hiff.mpr hstk) hst
      · simp [hstk]
  · -- the `{` branch: push and mode advance
    injection h with h2
    subst h2
    right
    refine ⟨by simp, by simp, ?_, by simp, by simp, by simp, by simp, by simp, by simp, by simp⟩
    intro hi
    obtain ⟨hiff, hd, hdr⟩ := hi
    rcases hts : t.state with _ | _ | _
    · exact absurd hts hst
    · have h1 : 1 ≤ t.nesting_stack.length := hd hts
      refine ⟨by simp [hts], by simp [hts], ?_⟩
      intro _
      simp
      omega
    · have h2 : 2 ≤ t.nesting_stack.length := hdr hts
      refine ⟨by simp [hts], by simp [hts], ?_⟩
      intro _
      simp
      omega
  · -- the `@` branch
    split at h <;> (injection h with h2; subst h2; right; apply facts_plain <;> simp)
  · injection h with h2
    subst h2
    exact Or.inr (facts_congr t _ _ (by simp) (by simp) (by simp) (consume_pseudo_facts _))
  · injection h with h2
    subst h2
    exact Or.inr (facts_congr t _ _ (by simp) (by simp) (by simp) (consume_class_facts _))
  · injection h with h2
    subst h2
    exact Or.inr (facts_congr t _ _ (by simp) (by simp) (by simp) (consume_id_facts _))
  · injection h with h2
    subst h2
    exact Or.inr (facts_congr t _ _ (by simp) (by simp) (by simp) (consume_star_facts _))
  · injection h with h2
    subst h2
    exact Or.inr (facts_congr t _ _ (by simp) (by simp) (by simp) (consume_attribute_facts _))
  · injection h with h2
    subst h2
    exact Or.inr (facts_congr t _ _ (by simp) (by simp) (by simp)
      (decl_combinator_facts _ _ (by simp)))
  · injection h with h2
    subst h2
    exact Or.inr (facts_congr t _ _ (by simp) (by simp) (by simp)
      (decl_combinator_facts _ _ (by simp)))
  · injection h with h2
    subst h2
    exact Or.inr (facts_congr t _ _ (by simp) (by simp) (by simp)
      (decl_combinator_facts _ _ (by simp)))
  · injection h with h2
    subst h2
    exact Or.inr (facts_congr t _ _ (by simp) (by simp) (by simp) (consume_comma_facts _))
  · split at h
    · exact Or.inr (facts_congr t _ _ (by simp) (by simp) (by simp)
        (consume_at_paren_facts _ _ _ h))
    · exact Or.inr (facts_congr t _ _ (by simp) (by simp) (by simp)
        (consume_decl_other_facts _ _ _ h))
  · rcases consume_slash_spec _ _ _ _ h with ⟨s2, hp⟩ | hf
    · exact Or.inl ⟨s2, hp⟩
    · exact Or.inr (facts_congr t _ _ (by simp) (by simp) (by simp) hf)
  · exact Or.inr (facts_congr t _ _ (by simp) (by simp) (by simp)
      (consume_decl_other_facts _ _ _ h))

theorem step_facts_congr (t t' : Tokenizer) (st : TkStep)
    (h2 : t'.state = t.state) (h3 : t'.nesting_stack = t.nesting_stack)
    (h : StepFacts t' st) : StepFacts t st := by
  unfold StepFacts Inv at h ⊢
  rw [h2, h3] at h
  exact h

theorem facts_to_step (t : Tokenizer) (st : TkStep) (hstart : t.at_start = false)
    (hf : Facts t st) : StepFacts t st := by
  obtain ⟨f1, f2, f3, f4, f5, f6, f7, f8, f9, f10⟩ := hf
  refine ⟨by rw [f1]; exact hstart, ?_, f3, f4, f5, f6, ?_, f8, f9, f10⟩
  · intro hcontr
    exact absurd hcontr f2
  · intro hsp
    obtain ⟨hrule, hpost⟩ := f7 hsp
    obtain ⟨p1, p2, p3, p4, p5, p6⟩ := hpost
    exact ⟨by rw [p1]; exact hrule, p2, p3, by rw [f1]; exact hstart, p4, p5, p6⟩

theorem dispatch_facts (fuel : Nat) (t1 : Tokenizer) (st : TkStep)
    (ih : ∀ u su, parse_next fuel u = some su → StepFacts u su)
    (hstart : t1.at_start = false)
    (h : (if t1.stream.at_end = true then some (t1, (Except.ok Token.EndOfStream : Except Error Token))
          else match t1.state with
            | State.Rule => consume_rule fuel (fun u => parse_next fuel u) t1
            | State.Declaration => consume_declaration fuel (fun u => parse_next fuel u) t1
            | State.DeclarationRule => consume_declaration fuel (fun u => parse_next fuel u) t1)
         = some st) :
    StepFacts t1 st := by
  by_cases hend : t1.stream.at_end = true
  · rw [if_pos hend] at h
    injection h with h2
    subst h2
    exact ⟨hstart, fun _ => hend, fun hi => hi, by simp, by simp, fun tok _ _ _ => rfl,
      by simp, by simp, by simp, by simp⟩
  · rw [if_neg hend] at h
    rcases hts : t1.state with _ | _ | _ <;> simp only [hts] at h
    · rcases consume_rule_spec _ _ _ _ hts h with ⟨s2, hp⟩ | hf
      · exact step_facts_congr t1 _ st (by simp) (by simp) (ih _ _ hp)
      · exact facts_to_step t1 st hstart hf
    · rcases consume_declaration_spec _ _ _ _ (by rw [hts]; simp) h with ⟨s2, hp⟩ | hf
      · exact step_facts_congr t1 _ st (by simp) (by simp) (ih _ _ hp)
      · exact facts_to_step t1 st hstart hf
    · rcases consume_declaration_spec _ _ _ _ (by rw [hts]; simp) h with ⟨s2, hp⟩ | hf
      · exact step_facts_congr t1 _ st (by simp) (by simp) (ih _ _ hp)
      · exact facts_to_step t1 st hstart hf

theorem parse_next_facts : ∀ (fuel : Nat) (t : Tokenizer) (st : TkStep),
    parse_next fuel t = some st → StepFacts t st := by
  intro fuel
  induction fuel with
  | zero =>
    intro t st h
    simp [parse_next] at h
  | succ fuel ih =>
    intro t st h
    unfold parse_next at h
    dsimp only at h
    by_cases hats : t.at_start = true
    · rw [if_pos hats] at h
      exact step_facts_congr t _ st (by simp) (by simp) (dispatch_facts fuel _ st ih (by simp) h)
    · rw [if_neg hats] at h
      have hstart : t.at_start = false := by simpa using hats
      exact dispatch_facts fuel t st ih hstart h

theorem reachable_inv (t : Tokenizer) (h : Reachable t) : Inv t := by
  induction h with
  | of_new text => exact ⟨by simp [Tokenizer.new], by simp [Tokenizer.new], by simp [Tokenizer.new]⟩
  | of_new_bound text start stop =>
    exact ⟨by simp [Tokenizer.new_bound], by simp [Tokenizer.new_bound],
      by simp [Tokenizer.new_bound]⟩
  | step ha hb ih => exact (parse_next_facts _ _ _ hb).2.2.1 ih

theorem parse_next_at_end (fuel : Nat) (t : Tokenizer) (h1 : t.at_start = false)
    (h2 : t.stream.at_end = true) :
    parse_next (fuel + 1) t = some (t, .ok .EndOfStream) := by
  unfold parse_next
  dsimp only
  have ha : ¬(t.at_start = true) := by simp [h1]
  rw [if_neg ha, if_pos h2]

theorem consume_id_shape (t t2 : Tokenizer) (tok : Token) (h : consume_id t = (t2, .ok tok)) :
    ∃ s, tok = .IdSelector s := by
  unfold consume_id at h
  rcases hc : consume_ident (t.stream.advance_raw 1) with ⟨s1, r⟩
  cases r <;> simp only [hc] at h
  · injection h with ha hb
    simp at hb
  · injection h with ha hb
    injection hb with hb2
    exact ⟨_, hb2.symm⟩

theorem consume_class_shape (t t2 : Tokenizer) (tok : Token) (h : consume_class t = (t2, .ok tok)) :
    ∃ s, tok = .ClassSelector s := by
  unfold consume_class at h
  rcases hc : consume_ident (t.stream.advance_raw 1) with ⟨s1, r⟩
  cases r <;> simp only [hc] at h
  · injection h with ha hb
    simp at hb
  · injection h with ha hb
    injection hb with hb2
    exact ⟨_, hb2.symm⟩

theorem consume_pseudo_shape (t t2 : Tokenizer) (tok : Token)
    (h : consume_pseudo t = (t2, .ok tok)) :
    (∃ s v, tok = .PseudoClass s v) ∨ (∃ s v, tok = .DoublePseudoClass s v) := by
  unfold consume_pseudo at h
  dsimp only at h
  split at h
  · simp at h
  · rename_i dbl heq
    split at h
    · simp at h
    · split at h
      · split at h
        · simp at h
        · cases dbl <;> simp at h <;> [exact Or.inl ⟨_, _, h.2.symm⟩;
            exact Or.inr ⟨_, _, h.2.symm⟩]
      · cases dbl <;> simp at h <;> [exact Or.inl ⟨_, _, h.2.symm⟩;
          exact Or.inr ⟨_, _, h.2.symm⟩]

theorem consume_attribute_shape (t t2 : Tokenizer) (tok : Token)
    (h : consume_attribute t = (t2, .ok tok)) : ∃ s, tok = .AttributeSelector s := by
  unfold consume_attribute at h
  dsimp only at h
  split at h
  · injection h with ha hb
    simp at hb
  · simp only [Stream.read_raw_str] at h
    injection h with ha hb
    injection hb with hb2
    exact ⟨_, hb2.symm⟩

theorem consume_rule_ident_shape (t t2 : Tokenizer) (tok : Token)
    (hhar : t.has_at_rule = false) (h : consume_rule_ident t = (t2, .ok tok)) :
    ∃ s, tok = .TypeSelector s := by
  unfold consume_rule_ident at h
  rcases hc : consume_ident t.stream with ⟨s1, r⟩
  cases r <;> simp only [hc] at h
  · injection h with ha hb
    simp at hb
  · rw [hhar] at h
    simp only [Bool.false_eq_true, if_false] at h
    injection h with ha hb
    injection hb with hb2
    exact ⟨_, hb2.symm⟩

theorem space_ready_step (fuel : Nat) (t t2 : Tokenizer) (tok : Token)
    (hr : SpaceReady t) (h : parse_next fuel t = some (t2, .ok tok)) :
    after_space_token tok = true := by
  obtain ⟨hrule, haf, hhar, hstart, hend, hspace, hsupp⟩ := hr
  cases fuel with
  | zero => simp [parse_next] at h
  | succ fuel =>
    unfold parse_next at h
    dsimp only at h
    have ha : ¬(t.at_start = true) := by simp [hstart]
    rw [if_neg ha] at h
    have hb : ¬(t.stream.at_end = true) := by simp [hend]
    rw [if_neg hb] at h
    simp only [hrule] at h
    unfold consume_rule at h
    dsimp only at h
    split at h
    · -- `@`
      split at h <;> injection h with h2
      · injection h2 with ha hb
        simp at hb
      · injection h2 with ha hb
        injection hb with hb2
        rw [← hb2]
        rfl
    · injection h with h2
      obtain ⟨s, rfl⟩ := consume_id_shape _ _ _ h2
      rfl
    · injection h with h2
      obtain ⟨s, rfl⟩ := consume_class_shape _ _ _ h2
      rfl
    · -- `*`
      injection h with h2
      unfold consume_star at h2
      injection h2 with ha hb
      injection hb with hb2
      rw [← hb2]
      rfl
    · injection h with h2
      rcases consume_pseudo_shape _ _ _ h2 with ⟨s, v, rfl⟩ | ⟨s, v, rfl⟩ <;> rfl
    · injection h with h2
      obtain ⟨s, rfl⟩ := consume_attribute_shape _ _ _ h2
      rfl
    · -- `,`
      injection h with h2
      unfold consume_comma at h2
      injection h2 with ha hb
      injection hb with hb2
      rw [← hb2]
      rfl
    · -- `{` contradicts the suppressed-byte condition
      rename_i heq
      rw [heq] at hsupp
      simp [suppress] at hsupp
    · rename_i heq
      rw [heq] at hsupp
      simp [suppress] at hsupp
    · rename_i heq
      rw [heq] at hsupp
      simp [suppress] at hsupp
    · rename_i heq
      rw [heq] at hsupp
      simp [suppress] at hsupp
    · rename_i heq
      rw [heq] at hsupp
      simp [suppress] at hsupp
    · rename_i heq
      rw [heq] at hsupp
      simp [suppress] at hsupp
    · -- default: not a space here, so a bare identifier
      unfold consume_rule_other at h
      dsimp only at h
      rw [if_neg (by simp [Stream.is_space_raw, hspace])] at h
      injection h with h2
      obtain ⟨s, rfl⟩ := consume_rule_ident_shape _ _ _ hhar h2
      rfl

theorem rule_combinator_error (fuel : Nat) (t : Tokenizer) (c : Nat)
    (h1 : t.at_start = false) (h2 : t.state = State.Rule) (h3 : t.stream.at_end = false)
    (h4 : t.stream.curr_char_raw = c) (h5 : c = 62 ∨ c = 43 ∨ c = 126)
    (h6 : t.after_selector = false) :
    parse_next (fuel + 1) t = some (t, .error (.UnknownToken t.stream.gen_error_pos)) := by
  unfold parse_next
  dsimp only
  have ha : ¬(t.at_start = true) := by simp [h1]
  rw [if_neg ha]
  have hb : ¬(t.stream.at_end = true) := by simp [h3]
  rw [if_neg hb]
  simp only [h2]
  unfold consume_rule
  rw [h4]
  rcases h5 with rfl | rfl | rfl <;>
    (show some (rule_combinator t _) = _
     unfold rule_combinator
     rw [if_neg (by simp [h6])])

theorem decl_combinator_emit (fuel : Nat) (t : Tokenizer) (c : Nat)
    (h1 : t.at_start = false) (h2 : t.state ≠ State.Rule) (h3 : t.stream.at_end = false)
    (h4 : t.stream.curr_char_raw = c) (h5 : c = 62 ∨ c = 43 ∨ c = 126) :
    parse_next (fuel + 1) t = some (decl_combinator t (combinator_of c)) := by
  have hss : t.stream.is_space_raw = false := by
    rw [Stream.is_space_raw, h4]
    rcases h5 with rfl | rfl | rfl <;> rfl
  have hsk : t.stream.skip_spaces = t.stream := skip_spaces_id _ hss
  unfold parse_next
  dsimp only
  have ha : ¬(t.at_start = true) := by simp [h1]
  rw [if_neg ha]
  have hb : ¬(t.stream.at_end = true) := by simp [h3]
  rw [if_neg hb]
  rcases hts : t.state with _ | _ | _
  · exact absurd hts h2
  all_goals
    simp only [hts]
    unfold consume_declaration
    dsimp only
    rw [hsk, h4]
    rcases h5 with rfl | rfl | rfl <;> rfl

/-! The claims. -/

/-- C1: EndOfStream is absorbing — once `parse_next` has returned
`Token::EndOfStream`, every subsequent `parse_next` call (with any
positive fuel) returns `EndOfStream` again with the tokenizer state
unchanged, so `pos()` does not advance. -/
theorem claim1_end_of_stream_absorbing (fuel : Nat) (t t1 : Tokenizer)
    (h : parse_next fuel t = some (t1, .ok .EndOfStream)) :
    ∀ fuel2 : Nat, parse_next (fuel2 + 1) t1 = some (t1, .ok .EndOfStream) := by
  intro fuel2
  have hf := parse_next_facts _ _ _ h
  exact parse_next_at_end fuel2 t1 hf.1 (hf.2.1 rfl)

/-- Witness for C1 at the empty input. -/
theorem claim1_witness :
    parse_next 1 (⟨⟨[], 0, 0⟩, .Rule, false, false, false, []⟩ : Tokenizer) =
      some (⟨⟨[], 0, 0⟩, .Rule, false, false, false, []⟩, .ok .EndOfStream) :=
  claim1_end_of_stream_absorbing 2 (Tokenizer.new [])
    ⟨⟨[], 0, 0⟩, .Rule, false, false, false, []⟩ rfl 0

/-- C2: stack discipline — in every reachable state the nesting depth is
a natural number (hence nonnegative), the `}` branch never pops an empty
stack (whenever the mode is not `Rule` the stack is nonempty, and the
pop only runs outside `Rule` mode), and a successful `parse_next` step
changes the depth by exactly +1 on `BlockStart`, exactly -1 on
`BlockEnd`, and not at all on any other emitted token. -/
theorem claim2_stack_discipline (t : Tokenizer) (hr : Reachable t) :
    0 ≤ t.nesting_stack.length ∧
    (t.state ≠ State.Rule → t.nesting_stack ≠ []) ∧
    (∀ fuel t1 tok, parse_next fuel t = some (t1, .ok tok) →
      (tok = .BlockStart → t1.nesting_stack.length = t.nesting_stack.length + 1) ∧
      (tok = .BlockEnd → t.nesting_stack.length = t1.nesting_stack.length + 1) ∧
      (tok ≠ .BlockStart → tok ≠ .BlockEnd →
        t1.nesting_stack.length = t.nesting_stack.length)) := by
  have hinv := reachable_inv t hr
  refine ⟨Nat.zero_le _, ?_, ?_⟩
  · intro hst hcontr
    exact hst (hinv.1.mpr hcontr)
  · intro fuel t1 tok h
    have hf := parse_next_facts _ _ _ h
    exact ⟨fun hbs => hf.2.2.2.1 (by rw [hbs]),
      fun hbe => hf.2.2.2.2.1 hinv (by rw [hbe]),
      fun hn1 hn2 => hf.2.2.2.2.2.1 tok rfl hn1 hn2⟩

/-- Witness for C2: parsing `{` from the initial state pushes one entry. -/
theorem claim2_witness :
    (⟨⟨[123], 0, 1⟩, .Declaration, false, false, false, [false]⟩ : Tokenizer).nesting_stack.length =
      (Tokenizer.new [123]).nesting_stack.length + 1 :=
  ((claim2_stack_discipline _ (Reachable.of_new [123])).2.2 20
    ⟨⟨[123], 0, 1⟩, .Declaration, false, false, false, [false]⟩ .BlockStart rfl).1 rfl

/-- C3: the input `".container { @media (min-width: 800px) { font-size:
18px; } }"` tokenizes to exactly `ClassSelector "container"`,
`BlockStart`, `AtRule "media"`, `AtStr "(min-width: 800px)"`,
`BlockStart`, `Declaration "font-size" "18px"`, `BlockEnd`, `BlockEnd`,
then `EndOfStream`. -/
theorem claim3_scenario_s5 :
    take_tokens 9 100 (Tokenizer.new
        (bytes ".container \x7b @media (min-width: 800px) \x7b font-size: 18px; \x7d \x7d")) =
      some [.ok (.ClassSelector (bytes "container")), .ok .BlockStart,
        .ok (.AtRule (bytes "media")), .ok (.AtStr (bytes "(min-width: 800px)")),
        .ok .BlockStart, .ok (.Declaration (bytes "font-size") (bytes "18px")),
        .ok .BlockEnd, .ok .BlockEnd, .ok .EndOfStream] := by
  rfl

/-- C4 counterexample: on `"a{b:/*x*/ ;}"` the third token is
`Declaration("b", " ")` — the scanned value `" "` is entirely whitespace
(the comment ate the text before it), the `rposition` right-trim finds
no non-space byte and leaves it untouched, so an emitted value CAN end
in ASCII whitespace, contradicting the claim as stated. -/
theorem claim4_counterexample :
    take_tokens 3 50 (Tokenizer.new (bytes "a\x7bb:/*x*/ ;\x7d")) =
      some [.ok (.TypeSelector (bytes "a")), .ok .BlockStart,
        .ok (.Declaration (bytes "b") [32])] ∧
    is_space (([32] : List Nat).getLastD 0) = true := by
  exact ⟨rfl, rfl⟩

/-- C4 (amended): when `consume_declaration` recognizes `name : value`,
a zero-length scanned value yields an `UnknownToken` error at the
current position (stated generally over the declaration-value tail, and
exercised concretely on `"div { color: }"`, which errors at offset 13 =
line 1, column 14); every emitted `Declaration(name, value)` has a
nonempty value that contains neither `;` nor `}`, and whenever the
value contains at least one non-whitespace byte, trailing ASCII
whitespace has been removed (the last byte is not whitespace).  An
all-whitespace scanned value is emitted unchanged. -/
theorem claim4_declaration_value_trim :
    (∀ (fuel : Nat) (t t1 : Tokenizer) (name v : List Nat),
      parse_next fuel t = some (t1, .ok (.Declaration name v)) →
      v ≠ [] ∧ 59 ∉ v ∧ 125 ∉ v ∧
      ((∃ b ∈ v, is_space b = false) → is_space (v.getLastD 0) = false)) ∧
    (∀ (fuel : Nat) (t : Tokenizer) (name : List Nat) (st0 st : Stream),
      maybe_comment fuel st0 = some (st, .ok ()) →
      st.length_to_either [59, 125] = .ok 0 →
      consume_decl_value fuel t name st0 =
        some ({ t with stream := st }, .error (.UnknownToken st.gen_error_pos))) ∧
    take_tokens 3 30 (Tokenizer.new (bytes "div \x7b color: \x7d")) =
      some [.ok (.TypeSelector (bytes "div")), .ok .BlockStart,
        .error (.UnknownToken 13)] ∧
    gen_line_col (bytes "div \x7b color: \x7d") 13 = ⟨1, 14⟩ := by
  refine ⟨?_, ?_, rfl, rfl⟩
  · intro fuel t t1 name v h
    have hf := (parse_next_facts _ _ _ h).2.2.2.2.2.2.2.2.2 name v rfl
    obtain ⟨g1, g2, g3, g4⟩ := hf
    refine ⟨g1, g2, g3, ?_⟩
    rintro ⟨b, hb, hbs⟩
    rcases g4 with hall | hlast
    · rw [hall b hb] at hbs
      cases hbs
    · exact hlast
  · intro fuel t name st0 st h1 h2
    unfold consume_decl_value
    rw [h1]
    simp [h2]

/-- Witness for C4: the trim part at the declaration step of `"a{b:c}"`
and the zero-length-value error at the scan position of
`"div { color: }"`. -/
theorem claim4_witness :
    (([99] : List Nat) ≠ [] ∧ (59 : Nat) ∉ ([99] : List Nat) ∧ (125 : Nat) ∉ ([99] : List Nat) ∧
      ((∃ b ∈ ([99] : List Nat), is_space b = false) →
        is_space (([99] : List Nat).getLastD 0) = false)) ∧
    consume_decl_value 20
        ⟨⟨bytes "div \x7b color: \x7d", 0, 13⟩, .Declaration, false, false, false, [false]⟩
        (bytes "color") ⟨bytes "div \x7b color: \x7d", 0, 13⟩ =
      some (⟨⟨bytes "div \x7b color: \x7d", 0, 13⟩, .Declaration, false, false, false, [false]⟩,
        .error (.UnknownToken 13)) :=
  ⟨claim4_declaration_value_trim.1 50
      ⟨⟨bytes "a\x7bb:c\x7d", 0, 2⟩, .Declaration, false, false, false, [false]⟩
      ⟨⟨bytes "a\x7bb:c\x7d", 0, 5⟩, .Declaration, false, false, false, [false]⟩
      (bytes "b") [99] rfl,
   claim4_declaration_value_trim.2.1 20
      ⟨⟨bytes "div \x7b color: \x7d", 0, 13⟩, .Declaration, false, false, false, [false]⟩
      (bytes "color") ⟨bytes "div \x7b color: \x7d", 0, 13⟩
      ⟨bytes "div \x7b color: \x7d", 0, 13⟩ rfl rfl⟩

/-- C5 counterexample: on `"a ,b"` the tokenizer emits
`Combinator(Space)` and the next successful token is `Comma`, which is
not in the claimed selector set (`AtRule` is similarly reachable, e.g.
on `"a @x"`). -/
theorem claim5_counterexample :
    take_tokens 3 20 (Tokenizer.new (bytes "a ,b")) =
      some [.ok (.TypeSelector (bytes "a")), .ok (.Combinator .Space), .ok .Comma] ∧
    selector_token .Comma = false := by
  exact ⟨rfl, rfl⟩

/-- C5 (amended): after `Combinator(Space)` is emitted, the next
`parse_next` call that returns `Ok` returns a `TypeSelector`,
`IdSelector`, `ClassSelector`, `UniversalSelector`,
`AttributeSelector`, `PseudoClass`, `DoublePseudoClass`, `AtRule` or
`Comma` token. -/
theorem claim5_after_space_tokens (fuel fuel2 : Nat) (t t1 t2 : Tokenizer) (tok : Token)
    (h1 : parse_next fuel t = some (t1, .ok (.Combinator .Space)))
    (h2 : parse_next fuel2 t1 = some (t2, .ok tok)) :
    after_space_token tok = true := by
  have hf := (parse_next_facts _ _ _ h1).2.2.2.2.2.2.1 rfl
  exact space_ready_step _ _ _ _ hf h2

/-- Witness for C5 on `"a b"`. -/
theorem claim5_witness : after_space_token (.TypeSelector (bytes "b")) = true :=
  claim5_after_space_tokens 20 20
    ⟨⟨bytes "a b", 0, 1⟩, .Rule, true, false, false, []⟩
    ⟨⟨bytes "a b", 0, 2⟩, .Rule, false, false, false, []⟩
    ⟨⟨bytes "a b", 0, 3⟩, .Rule, true, false, false, []⟩
    (.TypeSelector (bytes "b"))
    (by rfl) (by rfl)

/-- C6 counterexample: on `"a{>"` the third call runs in declaration
mode with `after_selector = false` and the current byte `>`, yet it
emits `Combinator(GreaterThan)` instead of the claimed `UnknownToken`
error. -/
theorem claim6_counterexample :
    step_n 2 20 (Tokenizer.new (bytes "a\x7b>")) =
      some ⟨⟨bytes "a\x7b>", 0, 2⟩, .Declaration, false, false, false, [false]⟩ ∧
    (⟨⟨bytes "a\x7b>", 0, 2⟩, .Declaration, false, false, false,
      ([false] : List Bool)⟩ : Tokenizer).after_selector = false ∧
    Stream.curr_char_raw ⟨bytes "a\x7b>", 0, 2⟩ = 62 ∧
    parse_next 20 (⟨⟨bytes "a\x7b>", 0, 2⟩, .Declaration, false, false, false,
        [false]⟩ : Tokenizer) =
      some (⟨⟨bytes "a\x7b>", 0, 3⟩, .Declaration, false, false, false, [false]⟩,
        .ok (.Combinator .GreaterThan)) := by
  exact ⟨rfl, rfl, rfl, rfl⟩

/-- C6 (amended): in `Rule` mode a bare `>`, `+` or `~` with
`after_selector = false` makes `parse_next` return `UnknownToken` at
that byte with the state unchanged; in `Declaration`/`DeclarationRule`
mode those bytes always emit the corresponding `Combinator` token,
regardless of `after_selector`. -/
theorem claim6_combinator_context :
    (∀ fuel (t : Tokenizer) (c : Nat), t.at_start = false → t.state = State.Rule →
      t.stream.at_end = false → t.stream.curr_char_raw = c →
      (c = 62 ∨ c = 43 ∨ c = 126) → t.after_selector = false →
      parse_next (fuel + 1) t = some (t, .error (.UnknownToken t.stream.gen_error_pos))) ∧
    (∀ fuel (t : Tokenizer) (c : Nat), t.at_start = false → t.state ≠ State.Rule →
      t.stream.at_end = false → t.stream.curr_char_raw = c →
      (c = 62 ∨ c = 43 ∨ c = 126) →
      parse_next (fuel + 1) t = some (decl_combinator t (combinator_of c))) :=
  ⟨fun fuel t c h1 h2 h3 h4 h5 h6 => rule_combinator_error fuel t c h1 h2 h3 h4 h5 h6,
   fun fuel t c h1 h2 h3 h4 h5 => decl_combinator_emit fuel t c h1 h2 h3 h4 h5⟩

/-- Witness for C6 at the byte `>` in both modes. -/
theorem claim6_witness :
    parse_next 5 (⟨⟨[62], 0, 0⟩, .Rule, false, false, false, []⟩ : Tokenizer) =
      some (⟨⟨[62], 0, 0⟩, .Rule, false, false, false, []⟩, .error (.UnknownToken 0)) ∧
    parse_next 5 (⟨⟨[62], 0, 0⟩, .Declaration, false, false, false, [false]⟩ : Tokenizer) =
      some (decl_combinator ⟨⟨[62], 0, 0⟩, .Declaration, false, false, false, [false]⟩
        (combinator_of 62)) :=
  ⟨claim6_combinator_context.1 4 ⟨⟨[62], 0, 0⟩, .Rule, false, false, false, []⟩ 62
      rfl rfl rfl rfl (Or.inl rfl) rfl,
   claim6_combinator_context.2 4 ⟨⟨[62], 0, 0⟩, .Declaration, false, false, false, [false]⟩ 62
      rfl (by simp) rfl rfl (Or.inl rfl)⟩

/-- C7 counterexample: on `":a(b(c))"` the emitted pseudo-class value is
`"b(c"` — the scan stops at the first `)` without tracking the nested
parenthesis, unlike the claimed balanced capture `"b(c)"`. -/
theorem claim7_counterexample :
    parse_next 30 (Tokenizer.new (bytes ":a(b(c))")) =
      some (⟨⟨bytes ":a(b(c))", 0, 7⟩, .Rule, true, false, false, []⟩,
        .ok (.PseudoClass (bytes "a") (some (bytes "b(c")))) ∧
    bytes "b(c" ≠ bytes "b(c)" := by
  exact ⟨rfl, by decide⟩

/-- C7 (amended): the value captured for `:name(arg)` / `::name(arg)` is
the raw content from the byte after `(` up to the first `)` — nested
parentheses are not tracked — so the payload never contains a `)`
byte. -/
theorem claim7_pseudo_argument :
    (∀ fuel (t t1 : Tokenizer) (s v : List Nat),
      parse_next fuel t = some (t1, .ok (.PseudoClass s (some v))) → 41 ∉ v) ∧
    (∀ fuel (t t1 : Tokenizer) (s v : List Nat),
      parse_next fuel t = some (t1, .ok (.DoublePseudoClass s (some v))) → 41 ∉ v) ∧
    parse_next 30 (Tokenizer.new (bytes ":a(b(c))")) =
      some (⟨⟨bytes ":a(b(c))", 0, 7⟩, .Rule, true, false, false, []⟩,
        .ok (.PseudoClass (bytes "a") (some (bytes "b(c")))) :=
  ⟨fun fuel t t1 s v h => (parse_next_facts _ _ _ h).2.2.2.2.2.2.2.1 s v rfl,
   fun fuel t t1 s v h => (parse_next_facts _ _ _ h).2.2.2.2.2.2.2.2.1 s v rfl,
   rfl⟩

/-- Witness for C7 on `":a(b(c))"`. -/
theorem claim7_witness : (41 : Nat) ∉ bytes "b(c" :=
  claim7_pseudo_argument.1 30 (Tokenizer.new (bytes ":a(b(c))"))
    ⟨⟨bytes ":a(b(c))", 0, 7⟩, .Rule, true, false, false, []⟩
    (bytes "a") (bytes "b(c") rfl

/-- C8: on `"div "` the second call hits end-of-stream inside
`consume_rule` (after the whitespace skip) and surfaces it as
`UnknownToken` at the current position — absolute offset 4, line 1
column 5 — rather than `EndOfStream`; and `Token::EndOfStream` is only
ever produced by the `at_end` guard, i.e. with the stream at its
end. -/
theorem claim8_eos_propagation :
    take_tokens 2 10 (Tokenizer.new (bytes "div ")) =
      some [.ok (.TypeSelector (bytes "div")), .error (.UnknownToken 4)] ∧
    gen_line_col (bytes "div ") 4 = ⟨1, 5⟩ ∧
    (∀ fuel (t t1 : Tokenizer), parse_next fuel t = some (t1, .ok .EndOfStream) →
      t1.stream.at_end = true) :=
  ⟨rfl, rfl, fun fuel t t1 h => (parse_next_facts _ _ _ h).2.1 rfl⟩

/-- Witness for C8 at the empty input. -/
theorem claim8_witness : Stream.at_end ⟨[], 0, 0⟩ = true :=
  claim8_eos_propagation.2.2 2 (Tokenizer.new [])
    ⟨⟨[], 0, 0⟩, .Rule, false, false, false, []⟩ rfl

/-- C10: mode/stack correspondence — in every reachable state the mode
is `Rule` exactly when the nesting stack is empty, `Declaration` implies
depth at least 1 and `DeclarationRule` implies depth at least 2, and
every successful `parse_next` step preserves this correspondence. -/
theorem claim10_mode_stack (t : Tokenizer) (hr : Reachable t) :
    ((t.state = State.Rule ↔ t.nesting_stack = []) ∧
     (t.state = State.Declaration → 1 ≤ t.nesting_stack.length) ∧
     (t.state = State.DeclarationRule → 2 ≤ t.nesting_stack.length)) ∧
    (∀ fuel t1 r, parse_next fuel t = some (t1, r) →
      (t1.state = State.Rule ↔ t1.nesting_stack = []) ∧
      (t1.state = State.Declaration → 1 ≤ t1.nesting_stack.length) ∧
      (t1.state = State.DeclarationRule → 2 ≤ t1.nesting_stack.length)) := by
  have hinv := reachable_inv t hr
  exact ⟨hinv, fun fuel t1 r h => (parse_next_facts _ _ _ h).2.2.1 hinv⟩

/-- Witness for C10 at the initial state. -/
theorem claim10_witness :
    (Tokenizer.new []).state = State.Rule ↔ (Tokenizer.new []).nesting_stack = [] :=
  (claim10_mode_stack _ (Reachable.of_new [])).1.1

theorem shift_rest (o : Nat) (s : Stream) : (shift_stream o s).rest = s.rest := rfl

theorem shift_at_end (o : Nat) (s : Stream) : (shift_stream o s).at_end = s.at_end := rfl

theorem shift_curr_raw (o : Nat) (s : Stream) :
    (shift_stream o s).curr_char_raw = s.curr_char_raw := rfl

theorem shift_is_space_raw (o : Nat) (s : Stream) :
    (shift_stream o s).is_space_raw = s.is_space_raw := rfl

theorem shift_gen (o : Nat) (s : Stream) :
    (shift_stream o s).gen_error_pos = o + s.gen_error_pos := by
  simp [shift_stream, Stream.gen_error_pos, Nat.add_assoc]

theorem shift_advance_raw (o : Nat) (s : Stream) (n : Nat) :
    (shift_stream o s).advance_raw n = shift_stream o (s.advance_raw n) := rfl

theorem shift_skip_spaces (o : Nat) (s : Stream) :
    (shift_stream o s).skip_spaces = shift_stream o s.skip_spaces := rfl

theorem shift_curr_char (o : Nat) (s : Stream) :
    (shift_stream o s).curr_char = shift_exc o s.curr_char := by
  unfold Stream.curr_char
  rw [shift_at_end, shift_gen, shift_curr_raw]
  by_cases he : s.at_end = true <;> simp [he, shift_exc, shift_err]

theorem shift_is_char_eq (o : Nat) (s : Stream) (b : Nat) :
    (shift_stream o s).is_char_eq b = shift_exc o (s.is_char_eq b) := by
  unfold Stream.is_char_eq
  rw [shift_at_end, shift_gen, shift_curr_raw]
  by_cases he : s.at_end = true <;> simp [he, shift_exc, shift_err]

theorem shift_length_to (o : Nat) (s : Stream) (b : Nat) :
    (shift_stream o s).length_to b = shift_exc o (s.length_to b) := by
  unfold Stream.length_to
  rw [shift_rest, shift_gen]
  rcases Stream.scan_to b s.rest with _ | n <;> simp [shift_exc, shift_err]

theorem shift_length_to_either (o : Nat) (s : Stream) (bs : List Nat) :
    (shift_stream o s).length_to_either bs = shift_exc o (s.length_to_either bs) := by
  unfold Stream.length_to_either
  rw [shift_rest, shift_gen]
  rcases Stream.scan_to_either bs s.rest with _ | n <;> simp [shift_exc, shift_err]

theorem shift_advance (o : Nat) (s : Stream) (n : Nat) :
    (shift_stream o s).advance n = shift_pair o (s.advance n) := by
  unfold Stream.advance
  have hc : (shift_stream o s).cursor = s.cursor := rfl
  have hd : (shift_stream o s).data = s.data := rfl
  rw [hc, hd, shift_gen]
  by_cases h : s.cursor + n ≤ s.data.length <;>
    simp [h, shift_pair, shift_exc, shift_err, shift_advance_raw]

theorem shift_read_raw_str (o : Nat) (s : Stream) (n : Nat) :
    (shift_stream o s).read_raw_str n =
      (shift_stream o (s.read_raw_str n).1, (s.read_raw_str n).2) := rfl

theorem shift_slice_region (o : Nat) (s : Stream) (a b : Nat) :
    (shift_stream o s).slice_region_raw_str a b = s.slice_region_raw_str a b := rfl

theorem shift_consume_ident (o : Nat) (s : Stream) :
    consume_ident (shift_stream o s) = shift_pair o (consume_ident s) := by
  unfold consume_ident
  rw [shift_rest, shift_gen]
  by_cases hn : ident_len s.rest = 0 <;>
    simp [hn, shift_pair, shift_exc, shift_err, shift_advance_raw]

theorem shift_comment_loop (o : Nat) :
    ∀ (fuel : Nat) (s : Stream),
      comment_loop fuel (shift_stream o s) = (comment_loop fuel s).map (shift_pair o) := by
  intro fuel
  induction fuel with
  | zero => intro s; simp [comment_loop]
  | succ fuel ih =>
    intro s
    unfold comment_loop
    rw [shift_at_end]
    by_cases he : s.at_end = true
    · simp [he, shift_pair, shift_exc]
    · simp only [he, Bool.false_eq_true, if_false]
      rw [shift_length_to]
      rcases s.length_to 42 with e | n
      · simp [shift_pair, shift_exc]
      · simp only [shift_exc]
        rw [shift_advance]
        rcases hadv : s.advance (n + 1) with ⟨s1, r1⟩
        cases r1
        · simp [shift_pair, shift_exc]
        · simp only [shift_pair, shift_exc]
          rw [shift_is_char_eq]
          rcases s1.is_char_eq 47 with e2 | b
          · simp [shift_exc, shift_pair]
          · cases b <;> simp [shift_exc, shift_pair, shift_advance_raw, ih]

theorem shift_consume_comment (o : Nat) (fuel : Nat) (s : Stream) :
    consume_comment fuel (shift_stream o s) = (consume_comment fuel s).map (shift_pair o) := by
  unfold consume_comment
  dsimp only
  rw [shift_advance_raw, shift_is_char_eq]
  rcases (s.advance_raw 1).is_char_eq 42 with e | b
  · simp [shift_exc, shift_pair]
  · cases b <;> simp [shift_exc, shift_pair, shift_advance_raw, shift_comment_loop]

theorem shift_quote_loop (o : Nat) :
    ∀ (fuel q : Nat) (s : Stream),
      quote_loop fuel q (shift_stream o s) = (quote_loop fuel q s).map (shift_stream o) := by
  intro fuel
  induction fuel with
  | zero => intro q s; simp [quote_loop]
  | succ fuel ih =>
    intro q s
    unfold quote_loop
    rw [shift_at_end]
    by_cases he : s.at_end = true
    · simp [he]
    · simp only [he, Bool.false_eq_true, if_false]
      rw [shift_curr_raw, shift_advance_raw, shift_at_end]
      by_cases hq : (s.curr_char_raw == q) = true
      · simp [hq]
      · simp only [hq, Bool.false_eq_true, if_false]
        by_cases hb : (s.curr_char_raw == 92 && !(s.advance_raw 1).at_end) = true <;>
          simp [hb, shift_advance_raw, ih]

theorem shift_paren_loop (o : Nat) :
    ∀ (fuel depth : Nat) (s : Stream),
      paren_loop fuel depth (shift_stream o s) =
        (paren_loop fuel depth s).map (fun p => (shift_stream o p.1, p.2)) := by
  intro fuel
  induction fuel with
  | zero => intro depth s; simp [paren_loop]
  | succ fuel ih =>
    intro depth s
    unfold paren_loop
    rw [shift_at_end]
    by_cases he : (s.at_end || depth == 0) = true
    · simp [he]
    · simp only [he, Bool.false_eq_true, if_false]
      rw [shift_curr_raw, shift_advance_raw]
      split
      · simp [ih]
      · simp [ih]
      · rw [shift_quote_loop]
        rcases quote_loop fuel 34 (s.advance_raw 1) with _ | s1 <;> simp [ih]
      · rw [shift_quote_loop]
        rcases quote_loop fuel 39 (s.advance_raw 1) with _ | s1 <;> simp [ih]
      · simp [ih]

theorem shift_cursor (o : Nat) (s : Stream) : (shift_stream o s).cursor = s.cursor := rfl

theorem shift_consume_paren (o : Nat) (fuel : Nat) (s : Stream) :
    consume_parenthesized_content fuel (shift_stream o s) =
      (consume_parenthesized_content fuel s).map (shift_pair o) := by
  unfold consume_parenthesized_content
  rw [shift_is_char_eq]
  rcases s.is_char_eq 40 with e | b
  · simp [shift_exc, shift_pair]
  · cases b
    · simp [shift_exc, shift_gen, shift_pair, shift_err]
    · simp only [shift_exc]
      have hc : (shift_stream o s).cursor = s.cursor := rfl
      rw [hc, shift_advance_raw, shift_paren_loop]
      rcases paren_loop fuel 1 (s.advance_raw 1) with _ | ⟨s1, depth⟩
      · simp
      · by_cases hd : (depth != 0) = true <;>
          simp [hd, shift_pair, shift_exc, shift_err, shift_gen, shift_skip_spaces,
            shift_slice_region, shift_cursor]

theorem shift_semi_loop (o : Nat) :
    ∀ (fuel : Nat) (s : Stream),
      semi_loop fuel (shift_stream o s) = (semi_loop fuel s).map (shift_pair o) := by
  intro fuel
  induction fuel with
  | zero => intro s; simp [semi_loop]
  | succ fuel ih =>
    intro s
    unfold semi_loop
    rw [shift_is_char_eq]
    rcases s.is_char_eq 59 with e | b
    · simp [shift_exc, shift_pair]
    · cases b <;> simp [shift_exc, shift_pair, shift_advance_raw, shift_skip_spaces, ih]

theorem shift_maybe_comment (o : Nat) (fuel : Nat) (s : Stream) :
    maybe_comment fuel (shift_stream o s) = (maybe_comment fuel s).map (shift_pair o) := by
  unfold maybe_comment
  rw [shift_is_char_eq]
  rcases s.is_char_eq 47 with e | b
  · simp [shift_exc, shift_pair]
  · cases b
    · simp [shift_exc, shift_pair]
    · simp only [shift_exc]
      rw [shift_consume_comment]
      rcases consume_comment fuel s with _ | ⟨s1, r⟩
      · simp
      · cases r
        · simp [shift_pair, shift_exc]
        · rename_i b2
          cases b2 <;> simp [shift_pair, shift_exc, shift_err, shift_gen]

theorem shift_consume_class (o : Nat) (t : Tokenizer) :
    consume_class (shift_tok o t) = shift_tstep o (consume_class t) := by
  unfold consume_class
  dsimp only [shift_tok]
  rcases h1 : consume_ident (t.stream.advance_raw 1) with ⟨s1, r⟩
  simp only [shift_advance_raw, shift_consume_ident, h1]
  cases r <;> simp [shift_pair, shift_exc, shift_tstep, shift_tok]

theorem shift_consume_id (o : Nat) (t : Tokenizer) :
    consume_id (shift_tok o t) = shift_tstep o (consume_id t) := by
  unfold consume_id
  dsimp only [shift_tok]
  rcases h1 : consume_ident (t.stream.advance_raw 1) with ⟨s1, r⟩
  simp only [shift_advance_raw, shift_consume_ident, h1]
  cases r <;> simp [shift_pair, shift_exc, shift_tstep, shift_tok]

theorem shift_consume_star (o : Nat) (t : Tokenizer) :
    consume_star (shift_tok o t) = shift_tstep o (consume_star t) := by
  unfold consume_star
  simp [shift_tok, shift_tstep, shift_advance_raw, shift_skip_spaces, shift_exc]

theorem shift_consume_comma (o : Nat) (t : Tokenizer) :
    consume_comma (shift_tok o t) = shift_tstep o (consume_comma t) := by
  unfold consume_comma
  simp [shift_tok, shift_tstep, shift_advance_raw, shift_skip_spaces, shift_exc]

theorem shift_consume_attribute (o : Nat) (t : Tokenizer) :
    consume_attribute (shift_tok o t) = shift_tstep o (consume_attribute t) := by
  unfold consume_attribute
  dsimp only [shift_tok]
  rcases h1 : (t.stream.advance_raw 1).length_to 93 with e | n <;>
    simp only [shift_advance_raw, shift_length_to, h1, shift_exc] <;>
    simp [Stream.read_raw_str, shift_tstep, shift_tok, shift_exc, shift_advance_raw,
      shift_skip_spaces, shift_rest]

theorem shift_consume_pseudo (o : Nat) (t : Tokenizer) :
    consume_pseudo (shift_tok o t) = shift_tstep o (consume_pseudo t) := by
  unfold consume_pseudo
  dsimp only [shift_tok]
  rcases h1 : (t.stream.advance_raw 1).is_char_eq 58 with e | dbl <;>
    simp only [shift_advance_raw, shift_is_char_eq, h1, shift_exc]
  · simp [shift_tstep, shift_tok, shift_exc]
  · have hs2 : (if dbl = true then shift_stream o ((t.stream.advance_raw 1).advance_raw 1)
        else shift_stream o (t.stream.advance_raw 1)) =
        shift_stream o (if dbl = true then (t.stream.advance_raw 1).advance_raw 1
        else t.stream.advance_raw 1) := by
      cases dbl <;> rfl
    rw [hs2]
    rcases h2 : consume_ident (if dbl = true then (t.stream.advance_raw 1).advance_raw 1
        else t.stream.advance_raw 1) with ⟨s3, r⟩
    simp only [shift_consume_ident, h2]
    cases r <;> simp only [shift_pair, shift_exc]
    · simp [shift_tstep, shift_tok, shift_exc]
    · rcases h3 : s3.curr_char with e2 | c <;> simp only [shift_curr_char, h3, shift_exc]
      · simp [shift_tstep, shift_tok, shift_exc]
      · split
        · rcases h4 : (s3.advance_raw 1).length_to 41 with e3 | n <;>
            simp only [shift_advance_raw, shift_length_to, h4, shift_exc] <;>
            simp [Stream.read_raw_str, shift_tstep, shift_tok, shift_exc,
              shift_advance_raw, shift_rest]
        · simp [shift_tstep, shift_tok, shift_exc]

theorem shift_rule_combinator (o : Nat) (t : Tokenizer) (c : Combinator) :
    rule_combinator (shift_tok o t) c = shift_tstep o (rule_combinator t c) := by
  unfold rule_combinator
  dsimp only [shift_tok]
  by_cases ha : t.after_selector = true <;>
    simp [ha, shift_tstep, shift_tok, shift_exc, shift_err, shift_advance_raw,
      shift_skip_spaces, shift_gen]

theorem shift_decl_combinator (o : Nat) (t : Tokenizer) (c : Combinator) :
    decl_combinator (shift_tok o t) c = shift_tstep o (decl_combinator t c) := by
  unfold decl_combinator
  simp [shift_tstep, shift_tok, shift_exc, shift_advance_raw, shift_skip_spaces]

theorem shift_consume_at_paren (o : Nat) (fuel : Nat) (t : Tokenizer) :
    consume_at_paren fuel (shift_tok o t) = (consume_at_paren fuel t).map (shift_tstep o) := by
  unfold consume_at_paren
  dsimp only [shift_tok]
  rw [shift_consume_paren]
  rcases consume_parenthesized_content fuel t.stream with _ | ⟨s1, r⟩
  · simp
  · cases r <;> simp [shift_pair, shift_exc, shift_tstep, shift_tok]

theorem shift_consume_slash (o : Nat) (fuel : Nat)
    (pn pn0 : Tokenizer → Option TkStep)
    (hpn : ∀ u, pn (shift_tok o u) = (pn0 u).map (shift_tstep o)) (t : Tokenizer) :
    consume_slash fuel pn (shift_tok o t) = (consume_slash fuel pn0 t).map (shift_tstep o) := by
  unfold consume_slash
  dsimp only [shift_tok]
  rw [shift_consume_comment]
  rcases consume_comment fuel t.stream with _ | ⟨s1, r⟩
  · simp
  · cases r
    · simp [shift_pair, shift_exc, shift_tstep, shift_tok]
    · rename_i b
      cases b
      · simp [shift_pair, shift_exc, shift_tstep, shift_tok, shift_err, shift_gen]
      · simp only [shift_pair, shift_exc, Option.map_some, if_true]
        have := hpn { t with stream := s1 }
        simp only [shift_tok] at this
        exact this

theorem shift_consume_rule_ident (o : Nat) (t : Tokenizer) :
    consume_rule_ident (shift_tok o t) = shift_tstep o (consume_rule_ident t) := by
  unfold consume_rule_ident
  dsimp only [shift_tok]
  rcases h1 : consume_ident t.stream with ⟨s1, r⟩
  simp only [shift_consume_ident, h1]
  cases r <;> simp only [shift_pair, shift_exc]
  · simp [shift_tstep, shift_tok, shift_exc]
  · by_cases ha : t.has_at_rule = true <;> simp [ha, shift_tstep, shift_tok, shift_exc]

theorem shift_consume_rule_other (o : Nat)
    (pn pn0 : Tokenizer → Option TkStep)
    (hpn : ∀ u, pn (shift_tok o u) = (pn0 u).map (shift_tstep o)) (t : Tokenizer) :
    consume_rule_other pn (shift_tok o t) = (consume_rule_other pn0 t).map (shift_tstep o) := by
  unfold consume_rule_other
  dsimp only [shift_tok]
  rw [shift_is_space_raw]
  by_cases hsp : t.stream.is_space_raw = true
  · simp only [hsp, if_true]
    by_cases haf : (!t.after_selector) = true
    · simp only [haf, if_true]
      rw [shift_skip_spaces]
      have := hpn { t with stream := t.stream.skip_spaces }
      simp only [shift_tok] at this
      exact this
    · simp only [haf, Bool.false_eq_true, if_false]
      rw [shift_skip_spaces, shift_curr_char]
      rcases h1 : t.stream.skip_spaces.curr_char with e | c <;> simp only [shift_exc]
      · simp [shift_tstep, shift_tok, shift_exc]
      · by_cases hc : (c == 123 || c == 47 || c == 62 || c == 43 || c == 126 ||
            c == 42 || c == 40) = true
        · simp only [hc, if_true]
          have := hpn { t with stream := t.stream.skip_spaces }
          simp only [shift_tok] at this
          exact this
        · simp only [hc, Bool.false_eq_true, if_false]
          by_cases hh : (!t.has_at_rule) = true
          · simp [hh, shift_tstep, shift_tok, shift_exc]
          · simp only [hh, Bool.false_eq_true, if_false]
            have hri := shift_consume_rule_ident o
              { t with stream := t.stream.skip_spaces, after_selector := false }
            simp only [shift_tok] at hri
            rw [hri]
            rfl
  · simp only [hsp, Bool.false_eq_true, if_false]
    have hri := shift_consume_rule_ident o t
    simp only [shift_tok] at hri
    rw [hri]
    rfl

theorem shift_consume_decl_value (o : Nat) (fuel : Nat) (t : Tokenizer) (name : List Nat)
    (st0 : Stream) :
    consume_decl_value fuel (shift_tok o t) name (shift_stream o st0) =
      (consume_decl_value fuel t name st0).map (shift_tstep o) := by
  unfold consume_decl_value
  dsimp only [shift_tok]
  rw [shift_maybe_comment]
  rcases maybe_comment fuel st0 with _ | ⟨st, r⟩
  · rfl
  · cases r
    · dsimp only [Option.map, shift_pair, shift_exc, shift_err]
      simp [shift_tstep, shift_tok, shift_exc, shift_err]
    · dsimp only [Option.map, shift_pair, shift_exc]
      rw [shift_length_to_either]
      rcases h1 : st.length_to_either [59, 125] with e | n <;> simp only [h1, shift_exc]
      · simp [shift_tstep, shift_tok, shift_exc, shift_err]
      · by_cases hn : (n == 0) = true
        · simp [hn, shift_tstep, shift_tok, shift_exc, shift_err, shift_gen]
        · simp only [hn, Bool.false_eq_true, if_false]
          dsimp only [Stream.read_raw_str]
          simp only [shift_rest, shift_advance_raw, shift_skip_spaces]
          rw [shift_semi_loop]
          rcases semi_loop fuel ((st.advance_raw n).skip_spaces) with _ | ⟨st2, r2⟩
          · rfl
          · cases r2 <;>
              (dsimp only [Option.map, shift_pair, shift_exc, shift_err]
               simp [shift_tstep, shift_tok, shift_exc, shift_err])

theorem shift_consume_decl_after_name (o : Nat) (fuel : Nat) (t : Tokenizer) (name : List Nat)
    (st0 : Stream) :
    consume_decl_after_name fuel (shift_tok o t) name (shift_stream o st0) =
      (consume_decl_after_name fuel t name st0).map (shift_tstep o) := by
  unfold consume_decl_after_name
  dsimp only [shift_tok]
  rw [shift_maybe_comment]
  rcases maybe_comment fuel st0 with _ | ⟨st, r⟩
  · rfl
  · cases r
    · dsimp only [Option.map, shift_pair, shift_exc, shift_err]
      simp [shift_tstep, shift_tok, shift_exc, shift_err]
    · dsimp only [Option.map, shift_pair, shift_exc]
      rw [shift_is_char_eq]
      rcases h1 : st.is_char_eq 123 with e | brace <;> simp only [h1, shift_exc]
      · simp [shift_tstep, shift_tok, shift_exc, shift_err]
      · cases brace
        · simp only [Bool.false_eq_true, if_false]
          rw [shift_is_char_eq]
          rcases h2 : st.is_char_eq 58 with e | colon <;> simp only [h2, shift_exc]
          · simp [shift_tstep, shift_tok, shift_exc, shift_err]
          · cases colon
            · simp [shift_tstep, shift_tok, shift_exc]
            · simp only [Bool.not_true, Bool.false_eq_true, if_false]
              rw [shift_advance_raw, shift_skip_spaces]
              exact shift_consume_decl_value o fuel t name ((st.advance_raw 1).skip_spaces)
        · by_cases hne : name.isEmpty = true <;>
            simp [hne, shift_tstep, shift_tok, shift_exc, shift_err, shift_gen]

theorem shift_consume_decl_other (o : Nat) (fuel : Nat) (t : Tokenizer) :
    consume_decl_other fuel (shift_tok o t) = (consume_decl_other fuel t).map (shift_tstep o) := by
  unfold consume_decl_other
  dsimp only [shift_tok]
  by_cases hh : t.has_at_rule = true
  · rw [if_pos hh, if_pos hh]
    rcases h1 : consume_ident t.stream with ⟨s1, r⟩
    simp only [shift_consume_ident, h1]
    cases r <;> dsimp only [shift_pair, shift_exc, shift_err] <;>
      simp [shift_tstep, shift_tok, shift_exc, shift_err, shift_skip_spaces]
  · rw [if_neg hh, if_neg hh]
    rcases h1 : consume_ident t.stream with ⟨s1, r⟩
    simp only [shift_consume_ident, h1]
    cases r <;> dsimp only [shift_pair, shift_exc, shift_err]
    · simp [shift_tstep, shift_tok, shift_exc, shift_err]
    · rw [shift_skip_spaces]
      exact shift_consume_decl_after_name o fuel t _ s1.skip_spaces

theorem shift_consume_rule (o : Nat) (fuel : Nat) (pn pn0 : Tokenizer → Option TkStep)
    (hpn : ∀ u, pn (shift_tok o u) = (pn0 u).map (shift_tstep o)) (t : Tokenizer) :
    consume_rule fuel pn (shift_tok o t) = (consume_rule fuel pn0 t).map (shift_tstep o) := by
  unfold consume_rule
  dsimp only [shift_tok]
  rw [shift_curr_raw]
  split
  · -- `@`
    rcases h1 : consume_ident (t.stream.advance_raw 1) with ⟨s1, r⟩
    simp only [shift_advance_raw, shift_consume_ident, h1]
    cases r <;> dsimp only [shift_pair, shift_exc, shift_err] <;>
      simp [shift_tstep, shift_tok, shift_exc, shift_err]
  · have hx := shift_consume_id o t
    simp only [shift_tok] at hx
    rw [hx]
    rfl
  · have hx := shift_consume_class o t
    simp only [shift_tok] at hx
    rw [hx]
    rfl
  · have hx := shift_consume_star o t
    simp only [shift_tok] at hx
    rw [hx]
    rfl
  · have hx := shift_consume_pseudo o t
    simp only [shift_tok] at hx
    rw [hx]
    rfl
  · have hx := shift_consume_attribute o t
    simp only [shift_tok] at hx
    rw [hx]
    rfl
  · have hx := shift_consume_comma o t
    simp only [shift_tok] at hx
    rw [hx]
    rfl
  · -- `{`
    simp [shift_tstep, shift_tok, shift_exc, shift_advance_raw]
  · have hx := shift_rule_combinator o t .GreaterThan
    simp only [shift_tok] at hx
    rw [hx]
    rfl
  · have hx := shift_rule_combinator o t .Plus
    simp only [shift_tok] at hx
    rw [hx]
    rfl
  · have hx := shift_rule_combinator o t .Tilde
    simp only [shift_tok] at hx
    rw [hx]
    rfl
  · have hx := shift_consume_slash o fuel pn pn0 hpn t
    simp only [shift_tok] at hx
    exact hx
  · by_cases hh : t.has_at_rule = true
    · rw [if_pos hh, if_pos hh]
      have hx := shift_consume_at_paren o fuel t
      simp only [shift_tok] at hx
      exact hx
    · rw [if_neg hh, if_neg hh]
      have hx := shift_consume_rule_other o pn pn0 hpn t
      simp only [shift_tok] at hx
      exact hx
  · have hx := shift_consume_rule_other o pn pn0 hpn t
    simp only [shift_tok] at hx
    exact hx

theorem shift_consume_declaration (o : Nat) (fuel : Nat) (pn pn0 : Tokenizer → Option TkStep)
    (hpn : ∀ u, pn (shift_tok o u) = (pn0 u).map (shift_tstep o)) (t : Tokenizer) :
    consume_declaration fuel pn (shift_tok o t) =
      (consume_declaration fuel pn0 t).map (shift_tstep o) := by
  unfold consume_declaration
  dsimp only [shift_tok]
  rw [shift_skip_spaces, shift_curr_raw]
  split
  · -- `}`
    simp [shift_tstep, shift_tok, shift_exc, shift_advance_raw, shift_skip_spaces]
  · -- `{`
    simp [shift_tstep, shift_tok, shift_exc, shift_advance_raw, shift_skip_spaces]
  · -- `@`
    rcases h1 : consume_ident ((t.stream.skip_spaces).advance_raw 1) with ⟨s1, r⟩
    simp only [shift_advance_raw, shift_consume_ident, h1]
    cases r <;> dsimp only [shift_pair, shift_exc, shift_err] <;>
      simp [shift_tstep, shift_tok, shift_exc, shift_err, shift_skip_spaces]
  · have hx := shift_consume_pseudo o { t with stream := t.stream.skip_spaces }
    simp only [shift_tok] at hx
    rw [hx]
    rfl
  · have hx := shift_consume_class o { t with stream := t.stream.skip_spaces }
    simp only [shift_tok] at hx
    rw [hx]
    rfl
  · have hx := shift_consume_id o { t with stream := t.stream.skip_spaces }
    simp only [shift_tok] at hx
    rw [hx]
    rfl
  · have hx := shift_consume_star o { t with stream := t.stream.skip_spaces }
    simp only [shift_tok] at hx
    rw [hx]
    rfl
  · have hx := shift_consume_attribute o { t with stream := t.stream.skip_spaces }
    simp only [shift_tok] at hx
    rw [hx]
    rfl
  · have hx := shift_decl_combinator o { t with stream := t.stream.skip_spaces } .GreaterThan
    simp only [shift_tok] at hx
    rw [hx]
    rfl
  · have hx := shift_decl_combinator o { t with stream := t.stream.skip_spaces } .Plus
    simp only [shift_tok] at hx
    rw [hx]
    rfl
  · have hx := shift_decl_combinator o { t with stream := t.stream.skip_spaces } .Tilde
    simp only [shift_tok] at hx
    rw [hx]
    rfl
  · have hx := shift_consume_comma o { t with stream := t.stream.skip_spaces }
    simp only [shift_tok] at hx
    rw [hx]
    rfl
  · by_cases hh : t.has_at_rule = true
    · rw [if_pos hh, if_pos hh]
      have hx := shift_consume_at_paren o fuel { t with stream := t.stream.skip_spaces }
      simp only [shift_tok] at hx
      exact hx
    · rw [if_neg hh, if_neg hh]
      have hx := shift_consume_decl_other o fuel { t with stream := t.stream.skip_spaces }
      simp only [shift_tok] at hx
      exact hx
  · have hx := shift_consume_slash o fuel pn pn0 hpn { t with stream := t.stream.skip_spaces }
    simp only [shift_tok] at hx
    exact hx
  · have hx := shift_consume_decl_other o fuel { t with stream := t.stream.skip_spaces }
    simp only [shift_tok] at hx
    exact hx

theorem shift_parse_body (o : Nat) (fuel : Nat)
    (ih : ∀ u, parse_next fuel (shift_tok o u) = (parse_next fuel u).map (shift_tstep o))
    (t1 : Tokenizer) :
    (if (shift_tok o t1).stream.at_end = true
      then some (shift_tok o t1, (Except.ok Token.EndOfStream : Except Error Token))
      else match (shift_tok o t1).state with
        | State.Rule => consume_rule fuel (fun u => parse_next fuel u) (shift_tok o t1)
        | State.Declaration => consume_declaration fuel (fun u => parse_next fuel u) (shift_tok o t1)
        | State.DeclarationRule =>
            consume_declaration fuel (fun u => parse_next fuel u) (shift_tok o t1)) =
    (if t1.stream.at_end = true
      then some (t1, (Except.ok Token.EndOfStream : Except Error Token))
      else match t1.state with
        | State.Rule => consume_rule fuel (fun u => parse_next fuel u) t1
        | State.Declaration => consume_declaration fuel (fun u => parse_next fuel u) t1
        | State.DeclarationRule =>
            consume_declaration fuel (fun u => parse_next fuel u) t1).map (shift_tstep o) := by
  have hae : (shift_tok o t1).stream.at_end = t1.stream.at_end := rfl
  have hst : (shift_tok o t1).state = t1.state := rfl
  rw [hae, hst]
  by_cases hend : t1.stream.at_end = true
  · simp [hend, shift_tstep, shift_exc]
  · simp only [hend, Bool.false_eq_true, if_false]
    rcases hts : t1.state with _ | _ | _ <;> simp only [hts]
    · exact shift_consume_rule o fuel _ _ (fun u => ih u) t1
    · exact shift_consume_declaration o fuel _ _ (fun u => ih u) t1
    · exact shift_consume_declaration o fuel _ _ (fun u => ih u) t1

theorem shift_parse_next (o : Nat) :
    ∀ (fuel : Nat) (t : Tokenizer),
      parse_next fuel (shift_tok o t) = (parse_next fuel t).map (shift_tstep o) := by
  intro fuel
  induction fuel with
  | zero => intro t; rfl
  | succ fuel ih =>
    intro t
    unfold parse_next
    dsimp only [shift_tok]
    by_cases hs : t.at_start = true
    · rw [if_pos hs, if_pos hs]
      rw [shift_skip_spaces]
      exact shift_parse_body o fuel ih { t with stream := t.stream.skip_spaces, at_start := false }
    · rw [if_neg hs, if_neg hs]
      exact shift_parse_body o fuel ih t

theorem shift_take_tokens (o : Nat) :
    ∀ (n fuel : Nat) (t : Tokenizer),
      take_tokens n fuel (shift_tok o t) =
        (take_tokens n fuel t).map (List.map (shift_exc o)) := by
  intro n
  induction n with
  | zero => intro fuel t; rfl
  | succ n ih =>
    intro fuel t
    unfold take_tokens
    rw [shift_parse_next]
    rcases parse_next fuel t with _ | ⟨t1, r⟩
    · rfl
    · dsimp only [Option.map, shift_tstep]
      rw [ih]
      rcases take_tokens n fuel t1 with _ | l <;> simp [shift_exc]

/-- C9: for every buffer and window `[start, stop)`, the bounded
tokenizer `new_bound(buf, start, stop)` produces exactly the token
results of `new` over the substring `buf[start..stop]`, with every
reported error position shifted by the window's absolute start. -/
theorem claim9_new_bound_equiv (buf : List Nat) (start stop n fuel : Nat) :
    take_tokens n fuel (Tokenizer.new_bound buf start stop) =
      (take_tokens n fuel (Tokenizer.new ((buf.drop start).take (stop - start)))).map
        (List.map (shift_exc start)) := by
  have h : Tokenizer.new_bound buf start stop =
      shift_tok start (Tokenizer.new ((buf.drop start).take (stop - start))) := by
    simp [Tokenizer.new_bound, Tokenizer.new, Stream.new_bound, Stream.new, shift_tok,
      shift_stream]
  rw [h, shift_take_tokens]

end SimpleCss
